import Mathlib

/-!
Verification of the `ansible-recursive` action plugins.

The development shallowly embeds the two action plugins of the repository:

* `plugins/action/r_copy.py` — the copy variant (`ActionModule.run`,
  `_get_all_parent_dirs`, `_get_mode`, `_get_owner`, `_get_group`,
  `_update_result_from_task`);
* `plugins/action/template_recursive.py` — the template variant
  (`ActionModule.run`, `strip_end`, `_does_remote_directory_exist`,
  `update_result_from_task`).

Python strings are embedded as Lean `String`s and the `os.path` helpers the
plugins call (`dirname`, `isabs`, `join`) are transcribed from the CPython
`posixpath` implementation.  External effects (the filesystem walk, remote
module execution, remote stat) are supplied as explicit environment values;
the embedded `run` functions additionally return the list of remote
operations they issue, so that ordering and abort behaviour can be stated.
-/

namespace AnsibleRecursive

/-! ### Python string and `posixpath` primitives -/

/-- `os.path.isabs(s)` on POSIX: the string starts with `'/'`, i.e. its
first character is `'/'`. -/
def pyIsAbs (s : String) : Bool :=
  decide (s.data.head? = some '/')

/-- `s.rstrip("/")` on a character list: drop trailing `'/'` characters. -/
def pyRstripSlashL (l : List Char) : List Char :=
  (l.reverse.dropWhile (fun c => c = '/')).reverse

/-- Python `s.rstrip("/")`: remove all trailing `'/'` characters. -/
def pyRstripSlash (s : String) : String :=
  ⟨pyRstripSlashL s.data⟩

/-- `posixpath.dirname` on a character list.  CPython computes
`head = p[:p.rfind('/') + 1]` (everything up to and including the last
slash, empty if there is no slash) and strips trailing slashes from `head`
unless `head` is empty or consists only of slashes.  `head` is obtained
here by dropping the non-slash suffix of the string. -/
def dirnameL (p : List Char) : List Char :=
  if ((p.reverse.dropWhile (fun c => c ≠ '/')).reverse).all (fun c => c = '/') then
    (p.reverse.dropWhile (fun c => c ≠ '/')).reverse
  else
    pyRstripSlashL ((p.reverse.dropWhile (fun c => c ≠ '/')).reverse)

/-- `os.path.dirname(s)` on POSIX. -/
def dirname (s : String) : String :=
  ⟨dirnameL s.data⟩

/-- `posixpath.join(a, b)`: if `b` is absolute the result is `b`; otherwise
`b` is appended to `a`, inserting `'/'` unless `a` is empty or already ends
with `'/'`. -/
def pyJoin (a b : String) : String :=
  if pyIsAbs b then b
  else if a = "" ∨ a.data.getLast? = some '/' then a ++ b
  else a ++ "/" ++ b

/-- Python `text.endswith(suffix)`. -/
def pyEndsWith (text suffix : String) : Bool :=
  suffix.data.isSuffixOf text.data

/-- `strip_end` from `template_recursive.py`: remove `suffix` from the end
of `text` when `suffix` is a nonempty string and `text` ends with it
(`text[:-len(suffix)]`), otherwise return `text` unchanged. -/
def stripEnd (text suffix : String) : String :=
  if suffix.data.length > 0 ∧ pyEndsWith text suffix = true then
    ⟨text.data.take (text.data.length - suffix.data.length)⟩
  else text

/-! ### Clean path shapes

`os.path.relpath` returns normalised relative paths: nonempty, no leading
or trailing slash, no repeated slash.  The destination paths the plugins
build are `"/"` joined with such a path.  These predicates are only used in
theorem statements and hypotheses, never inside the embedded code. -/

/-- No two consecutive `'/'` characters. -/
def noDoubleSlash : List Char → Bool
  | [] => true
  | [_] => true
  | a :: b :: rest => (!(a = '/' && b = '/')) && noDoubleSlash (b :: rest)

/-- A clean relative path fragment: nonempty, does not start or end with
`'/'`, and has no repeated slashes (the shape of `os.path.relpath` output
for a file strictly below the root). -/
def CleanRelL (r : List Char) : Prop :=
  r ≠ [] ∧ r.head? ≠ some '/' ∧ r.getLast? ≠ some '/' ∧ noDoubleSlash r = true

instance (r : List Char) : Decidable (CleanRelL r) := by
  unfold CleanRelL; infer_instance

/-- A clean relative path as a string. -/
def CleanRel (s : String) : Prop := CleanRelL s.data

instance (s : String) : Decidable (CleanRel s) := by
  unfold CleanRel; infer_instance

/-- A clean absolute path: `'/'` followed by a clean relative fragment. -/
def CleanAbs (p : String) : Prop :=
  p.data.head? = some '/' ∧ CleanRelL p.data.tail

instance (p : String) : Decidable (CleanAbs p) := by
  unfold CleanAbs; infer_instance

/-! ### The chain of strict ancestors of a path

`strictAncestors p` is the list `[dirname p, dirname (dirname p), …]`,
stopping as soon as `dirname` no longer shortens the path (for absolute
normalised paths this happens exactly at `"/"`).  It is the reference
notion of "strict ancestor directory" used in the theorem statements. -/

def dirnameChain (fuel : Nat) (p : String) : List String :=
  match fuel with
  | 0 => []
  | fuel' + 1 =>
    if (dirname p).length < p.length then dirname p :: dirnameChain fuel' (dirname p)
    else []

def strictAncestors (p : String) : List String := dirnameChain p.length p

/-! ### `_get_all_parent_dirs` from `r_copy.py`

The Python body is a `while` loop per path:
```
cursor = path
while (dirname := os.path.dirname(cursor)) not in output:
    output.append(dirname)
    cursor = dirname
```
The loop is embedded with explicit fuel.  Each iteration either terminates,
strictly shortens the cursor (`dirname_length_le` plus
`dirname_eq_of_length_eq`), or hits a `dirname` fixpoint, which the very
next iteration detects (the fixpoint was just appended).  Hence
`cursor.length + 2` fuel always exceeds the iteration count;
`parentChainLoop_fuel` certifies that the result is fuel-independent from
that bound on, so the fueled recursion computes exactly the Python loop. -/

def parentChainLoop : Nat → String → List String → List String
  | 0, _, output => output
  | fuel + 1, cursor, output =>
    if dirname cursor ∈ output then output
    else parentChainLoop fuel (dirname cursor) (output ++ [dirname cursor])

/-- `_get_all_parent_dirs(paths)` (without its `assert`, which the caller
model checks separately): run the while loop above for every path, in
order, against a shared `output` accumulator. -/
def getAllParentDirs (paths : List String) : List String :=
  paths.foldl (fun output path => parentChainLoop (path.length + 2) path output) []

/-! ### `sorted(…, key=len)` and `list.remove`

Python's `sorted` is a stable sort; by the given key (string length) a
stable sort's output is uniquely determined, so it is embedded as a stable
insertion sort (each element is placed after all already-placed elements of
smaller or equal length). -/

def sortedInsertLen (a : String) : List String → List String
  | [] => [a]
  | b :: rest => if b.length ≤ a.length then b :: sortedInsertLen a rest else a :: b :: rest

/-- Python `sorted(l, key=len)`. -/
def pySortedKeyLen (l : List String) : List String :=
  l.foldl (fun acc x => sortedInsertLen x acc) []

/-- Python `list.remove(a)`: delete the first occurrence of `a`, or raise
`ValueError` (modelled as `none`) when `a` is absent. -/
def pyRemove (a : String) (l : List String) : Option (List String) :=
  if a ∈ l then some (l.erase a) else none

/-! ### The destination-directory pipeline of `ActionModule.run`

Lines 196–199 of `r_copy.py`:
```
destination_dirs = sorted(_get_all_parent_dirs(destination_files), key=len)
destination_dirs.remove("/")  # don't mess with root directory
```
-/

def destinationDirsPipeline (destination_files : List String) : Option (List String) :=
  pyRemove "/" (pySortedKeyLen (getAllParentDirs destination_files))

/-! ### Task outputs, accumulated results and diff handling

An Ansible sub-task returns a dict; the keys the plugins inspect are
`changed`, `failed`, `msg` and `diff`.  A `diff` value is either a single
before/after dict or a list of such dicts. -/

/-- A single before/after diff record; absent keys are `none`. -/
structure Diff where
  before : Option String
  after : Option String
deriving DecidableEq

/-- The `diff` value of a task output: a dict or a list of dicts. -/
inductive DiffVal where
  | dict (d : Diff)
  | list (l : List Diff)
deriving DecidableEq

/-- The fields of a sub-task's output dict that the plugins read; `none`
means the key is absent.  `changed = some b` models the key being present
with boolean value `b` (the plugins test identity with `True`). -/
structure TaskOutput where
  changed : Option Bool
  failed : Option Bool
  msg : Option String
  diff : Option DiffVal
deriving DecidableEq

/-- The accumulated plugin result (`changed`, `failed`, `msg`, `diff`
initialised at the top of both `run` methods). -/
structure RunResult where
  changed : Bool
  failed : Bool
  msg : String
  diff : List Diff
deriving DecidableEq

def initResult : RunResult := ⟨false, false, "", []⟩

/-- `_result_failed(msg)` of `r_copy.py` / `result_failed(msg)` of
`template_recursive.py`: set `failed` and overwrite `msg` on the freshly
initialised result. -/
def resultFailed (msg : String) : RunResult := ⟨false, true, msg, []⟩

def diffEntries : DiffVal → List Diff
  | .dict d => [d]
  | .list l => l

/-- `_do_save_diff` inside `_update_result_from_task` of `r_copy.py`.
For a list-valued diff the Python membership tests `"before" in diff` are
list-membership tests over dicts and are therefore false, so the function
returns `True`. -/
def doSaveDiff (t : TaskOutput) : Bool :=
  match t.diff with
  | none => false
  | some dv =>
    if t.changed = some true then true
    else
      match dv with
      | .dict d => if d.before.isSome ∧ d.after.isSome ∧ d.before = d.after then false else true
      | .list _ => true

/-- `ActionModule._update_result_from_task` of `r_copy.py`. -/
def updateResultFromTask (r : RunResult) (t : TaskOutput) : RunResult :=
  let r1 := if t.changed = some true then { r with changed := true } else r
  let r2 := if t.failed = some true then { r1 with failed := true } else r1
  let r3 := match t.msg with
    | some m => { r2 with msg := r2.msg ++ "\n" ++ m }
    | none => r2
  match t.diff with
  | some dv => if doSaveDiff t then { r3 with diff := r3.diff ++ diffEntries dv } else r3
  | none => r3

/-- `update_result_from_task` of `template_recursive.py`: identical to the
copy variant except that any present `diff` is appended unconditionally. -/
def templateUpdateResultFromTask (r : RunResult) (t : TaskOutput) : RunResult :=
  let r1 := if t.changed = some true then { r with changed := true } else r
  let r2 := if t.failed = some true then { r1 with failed := true } else r1
  let r3 := match t.msg with
    | some m => { r2 with msg := r2.msg ++ "\n" ++ m }
    | none => r2
  match t.diff with
  | some dv => { r3 with diff := r3.diff ++ diffEntries dv }
  | none => r3

/-! ### Arguments, validation helpers and policy resolution (`r_copy.py`) -/

/-- A Python value that may or may not be a string (`isinstance(mode, str)`
is tested during mode validation); `shown` is only used to build the error
message. -/
inductive PyVal where
  | str (s : String)
  | nonStr (shown : String)
deriving DecidableEq

def isOctalDigit (c : Char) : Bool := '0' ≤ c && c ≤ '7'

/-- `re.fullmatch(r"[0-7]{4}", s)`: exactly four characters, each in the
range `'0'`–`'7'`. -/
def modeRegexFullmatch (s : String) : Bool :=
  s.length == 4 && s.data.all isOctalDigit

/-- One iteration of the mode-validation loop (lines 170–179 of
`r_copy.py`): `some msg` is the failure message, `none` means the value
passes.  The Python message for a non-string also interpolates
`type(mode)`, which is not modelled. -/
def modeCheck : PyVal → Option String
  | .nonStr shown => some ("mode \"" ++ shown ++ "\" is not a string!")
  | .str s =>
    if modeRegexFullmatch s then none
    else some ("mode \"" ++ s ++ "\" does not match regex: \"[0-7]\x7b4\x7d\"")

/-- The whole mode-validation loop: first failure message, if any. -/
def checkModesList (modes : List PyVal) : Option String :=
  modes.findSome? modeCheck

/-- Lines 184–186 of `r_copy.py`:
```
for override, paths in args[arg_name].items():
    args[arg_name] = {override: [x.rstrip("/") for x in paths]}
```
Each iteration replaces the whole dict by a one-entry dict, so the final
value is the singleton of the last-iterated entry (dicts are embedded as
association lists in iteration order). -/
def normalizeOverrides {κ : Type} (d : List (κ × List String)) : List (κ × List String) :=
  d.foldl (fun _ kv => [(kv.1, kv.2.map pyRstripSlash)]) d

/-- `ActionModule._get_mode`: first override whose path list contains
`path`, else the default for the requested kind. -/
def getMode (mode_overrides : List (PyVal × List String)) (mode parent_dirs_mode : PyVal)
    (path : String) (file_or_dir : String) : PyVal :=
  match mode_overrides.find? (fun kv => decide (path ∈ kv.2)) with
  | some kv => kv.1
  | none => if file_or_dir = "file" then mode else parent_dirs_mode

/-- `ActionModule._get_owner`. -/
def getOwner (owner_overrides : List (String × List String)) (owner : String)
    (path : String) : String :=
  match owner_overrides.find? (fun kv => decide (path ∈ kv.2)) with
  | some kv => kv.1
  | none => owner

/-- `ActionModule._get_group`. -/
def getGroup (group_overrides : List (String × List String)) (group : String)
    (path : String) : String :=
  match group_overrides.find? (fun kv => decide (path ∈ kv.2)) with
  | some kv => kv.1
  | none => group

/-! ### The copy-variant driver (`ActionModule.run` of `r_copy.py`) -/

/-- The task arguments.  The required arguments are fields (their presence
checks, lines 161–163, cannot fail on this representation); the optional
override tables are `Option`s defaulted to `{}` by lines 181–183;
`extra_args` lists the names of any further, unsupported arguments (in dict
iteration order), triggering the check at lines 164–166. -/
structure CopyArgs where
  owner : String
  group : String
  mode : PyVal
  parent_dirs_mode : PyVal
  src_root : String
  mode_overrides : Option (List (PyVal × List String))
  owner_overrides : Option (List (String × List String))
  group_overrides : Option (List (String × List String))
  extra_args : List String

/-- A remote operation issued by the copy variant, with the resolved
attributes. -/
inductive RemoteOp where
  | mkdir (path owner group : String) (mode : PyVal)
  | copy (src dest owner group : String) (mode : PyVal)
deriving DecidableEq

/-- The external world of a copy-variant run: the host OS name, the local
filesystem checks (`os.path.isdir`, `os.walk` + `os.path.relpath`,
supplied as `(full_src_path, relative_src_path)` pairs), and the outcomes
of the delegated remote modules. -/
structure CopyEnv where
  this_os : String
  src_root_isdir : String → Bool
  walk : List (String × String)
  mkdirOutput : String → TaskOutput
  copyOutput : String → String → TaskOutput

def SUPPORTED_OS : List String := ["linux", "darwin"]

/-- The normalised override tables together with the defaults, as consulted
by the getters after the in-place normalisation of `self._task.args`. -/
structure ResolvedArgs where
  owner : String
  group : String
  mode : PyVal
  parent_dirs_mode : PyVal
  mode_overrides : List (PyVal × List String)
  owner_overrides : List (String × List String)
  group_overrides : List (String × List String)

def copyResolvedArgs (args : CopyArgs) : ResolvedArgs :=
  ⟨args.owner, args.group, args.mode, args.parent_dirs_mode,
    normalizeOverrides (args.mode_overrides.getD []),
    normalizeOverrides (args.owner_overrides.getD []),
    normalizeOverrides (args.group_overrides.getD [])⟩

/-- The modes validated at lines 170–179: `mode`, `parent_dirs_mode`, then
the keys of `args.get("mode_overrides", {})` (before normalisation). -/
def copyModesToCheck (args : CopyArgs) : List PyVal :=
  args.mode :: args.parent_dirs_mode :: (args.mode_overrides.getD []).map Prod.fst

/-- Lines 188–194: each walked file is paired with the destination
`os.path.join("/", relative_src_path)`. -/
def destPairs (walk : List (String × String)) : List (String × String) :=
  walk.map (fun pr => (pr.1, pyJoin "/" pr.2))

/-- Lines 201–205: every path mentioned in any normalised override table. -/
def copyOverridePaths (ra : ResolvedArgs) : List String :=
  (ra.mode_overrides.map Prod.snd ++ ra.owner_overrides.map Prod.snd ++
    ra.group_overrides.map Prod.snd).flatten

/-- Line 206: `set(override_paths) - set(destination_paths)`, kept as a
list; only emptiness and membership are relevant. -/
def overridesNotFound (ra : ResolvedArgs) (destination_paths : List String) : List String :=
  (copyOverridePaths ra).filter (fun p => decide (p ∉ destination_paths))

/-- The message of lines 208–211 (Python formats the two containers with
`repr`; only the prefix and the mentioned paths are modelled). -/
def invalidOverridesMsg (notFound validPaths : List String) : String :=
  "overrides specified for invalid paths: " ++ String.intercalate ", " notFound ++
    ". valid paths: " ++ String.intercalate ", " validPaths

/-- The mkdir operation issued for a destination directory: arguments of
`_mkdir_chmod_chown`. -/
def dirOpOf (ra : ResolvedArgs) (path : String) : RemoteOp :=
  .mkdir path (getOwner ra.owner_overrides ra.owner path)
    (getGroup ra.group_overrides ra.group path)
    (getMode ra.mode_overrides ra.mode ra.parent_dirs_mode path "dir")

/-- The copy operation issued for a source/destination pair: arguments of
`_copy_chmod_chown`. -/
def fileOpOf (ra : ResolvedArgs) (src dest : String) : RemoteOp :=
  .copy src dest (getOwner ra.owner_overrides ra.owner dest)
    (getGroup ra.group_overrides ra.group dest)
    (getMode ra.mode_overrides ra.mode ra.parent_dirs_mode dest "file")

/-- Lines 213–216: the directory loop.  Returns the final accumulated
result and the list of issued operations; stops after the first operation
whose accumulated result is failed. -/
def dirPhase (env : CopyEnv) (ra : ResolvedArgs) :
    RunResult → List String → RunResult × List RemoteOp
  | r, [] => (r, [])
  | r, d :: rest =>
    let r' := updateResultFromTask r (env.mkdirOutput d)
    if r'.failed then (r', [dirOpOf ra d])
    else
      let next := dirPhase env ra r' rest
      (next.1, dirOpOf ra d :: next.2)

/-- Lines 218–221: the file loop. -/
def filePhase (env : CopyEnv) (ra : ResolvedArgs) :
    RunResult → List (String × String) → RunResult × List RemoteOp
  | r, [] => (r, [])
  | r, sd :: rest =>
    let r' := updateResultFromTask r (env.copyOutput sd.1 sd.2)
    if r'.failed then (r', [fileOpOf ra sd.1 sd.2])
    else
      let next := filePhase env ra r' rest
      (next.1, fileOpOf ra sd.1 sd.2 :: next.2)

/-- The possible outcomes of `ActionModule.run` of `r_copy.py`: a returned
result dict, or an uncaught exception (`assert` in `_get_all_parent_dirs`,
or `ValueError` from `destination_dirs.remove("/")`). -/
inductive CopyOutcome where
  | ok (r : RunResult)
  | assertionError
  | valueError
deriving DecidableEq

/-- Lines 188–222 of `r_copy.py`: the part of `ActionModule.run` after the
validation of arguments, source root and modes — tree walk, ancestor
derivation, override-path validation, then the two phases. -/
def copyRunPhases (env : CopyEnv) (args : CopyArgs) : CopyOutcome × List RemoteOp :=
  let ra := copyResolvedArgs args
  let src_dest_tuples := destPairs env.walk
  let destination_files := src_dest_tuples.map Prod.snd
  if destination_files.all pyIsAbs = false then (.assertionError, [])
  else match destinationDirsPipeline destination_files with
  | none => (.valueError, [])
  | some destination_dirs =>
    if overridesNotFound ra (destination_files ++ destination_dirs) ≠ [] then
      (.ok (resultFailed (invalidOverridesMsg
        (overridesNotFound ra (destination_files ++ destination_dirs))
        (destination_files ++ destination_dirs))), [])
    else
      let step1 := dirPhase env ra initResult destination_dirs
      if step1.1.failed then (.ok step1.1, step1.2)
      else
        let step2 := filePhase env ra step1.1 src_dest_tuples
        (.ok step2.1, step1.2 ++ step2.2)

/-- `ActionModule.run` of `r_copy.py` (lines 133–222), paired with the list
of remote operations it issues, in order. -/
def copyRun (env : CopyEnv) (args : CopyArgs) : CopyOutcome × List RemoteOp :=
  if env.this_os ∉ SUPPORTED_OS then
    (.ok (resultFailed ("unsupported OS: \"" ++ env.this_os ++ "\"")), [])
  else match args.extra_args with
  | name :: _ => (.ok (resultFailed ("unsupported argument: \"" ++ name ++ "\"")), [])
  | [] =>
    if env.src_root_isdir args.src_root = false then
      (.ok (resultFailed ("\"" ++ args.src_root ++ "\" is not a directory!")), [])
    else match checkModesList (copyModesToCheck args) with
    | some msg => (.ok (resultFailed msg), [])
    | none => copyRunPhases env args

/-! ### The template variant (`template_recursive.py`) -/

/-- The task arguments of `template_recursive.py`.  Only `templates_root`
is ever required; `mode`, `owner`, `group` and `new_dir_mode` are read
optionally; any other argument is passed through to the delegated template
action without validation (`extra_args` lists such names). -/
structure TemplateArgs where
  templates_root : Option String
  mode : Option String
  owner : Option String
  group : Option String
  new_dir_mode : Option String
  extra_args : List String

/-- The fields of `_execute_remote_stat` read by
`_does_remote_directory_exist`: `stats["exists"]` and `stats["isdir"]`. -/
structure RemoteStat where
  exists_ : Bool
  isdir : Bool

/-- A remote operation issued by the template variant. -/
inductive TemplateOp where
  | createDir (path : String) (mode : String) (owner group : Option String)
  | template (src dest : String)
deriving DecidableEq

/-- The external world of a template-variant run. -/
structure TemplateEnv where
  templates_root_isdir : String → Bool
  walk : List (String × String)
  remoteStat : String → RemoteStat
  createDirOutput : String → TaskOutput
  templateOutput : String → String → TaskOutput

/-- `ActionModule._does_remote_directory_exist`. -/
def doesRemoteDirectoryExist (env : TemplateEnv) (path : String) : Bool :=
  (env.remoteStat path).exists_ && (env.remoteStat path).isdir

/-- Lines 92–99: each walked file is paired with
`strip_end(os.path.join("/", relative_src_path), ".j2")`. -/
def templateFiles (walk : List (String × String)) : List (String × String) :=
  walk.map (fun pr => (pr.1, stripEnd (pyJoin "/" pr.2) ".j2"))

/-- `list(set(dest_dirs))` at line 102.  Python's set iteration order is
unspecified; first-occurrence order is chosen here, and no stated property
depends on the order. -/
def dedupFirst (l : List String) : List String :=
  l.foldl (fun acc x => if x ∈ acc then acc else acc ++ [x]) []

/-- The file-module invocation built by `_create_directory`. -/
def templateCreateDirOp (args : TemplateArgs) (path : String) : TemplateOp :=
  .createDir path (args.new_dir_mode.getD "0755") args.owner args.group

/-- Lines 102–106: the directory loop; a directory is created only when the
remote stat does not report an existing directory. -/
def templateDirPhase (env : TemplateEnv) (args : TemplateArgs) :
    RunResult → List String → RunResult × List TemplateOp
  | r, [] => (r, [])
  | r, d :: rest =>
    if doesRemoteDirectoryExist env d then templateDirPhase env args r rest
    else
      let r' := templateUpdateResultFromTask r (env.createDirOutput d)
      if r'.failed then (r', [templateCreateDirOp args d])
      else
        let next := templateDirPhase env args r' rest
        (next.1, templateCreateDirOp args d :: next.2)

/-- Lines 108–113: the template loop. -/
def templateFilePhase (env : TemplateEnv) :
    RunResult → List (String × String) → RunResult × List TemplateOp
  | r, [] => (r, [])
  | r, sd :: rest =>
    let r' := templateUpdateResultFromTask r (env.templateOutput sd.1 sd.2)
    if r'.failed then (r', [TemplateOp.template sd.1 sd.2])
    else
      let next := templateFilePhase env r' rest
      (next.1, TemplateOp.template sd.1 sd.2 :: next.2)

/-- `ActionModule.run` of `template_recursive.py` (lines 57–115), paired
with the list of remote operations it issues.  The `mode` defaulting at
lines 89–90 only mutates the argument dict forwarded to the delegated
template action, which is outside the model boundary. -/
def templateRun (env : TemplateEnv) (args : TemplateArgs) : RunResult × List TemplateOp :=
  match args.templates_root with
  | none => (resultFailed "`templates_root` argument is required!", [])
  | some templates_root =>
    if env.templates_root_isdir templates_root = false then
      (resultFailed ("\"" ++ templates_root ++ "\" is not a directory!"), [])
    else
      let template_files := templateFiles env.walk
      let dest_dirs := dedupFirst (template_files.map (fun pr => dirname pr.2))
      let step1 := templateDirPhase env args initResult dest_dirs
      if step1.1.failed then (step1.1, step1.2)
      else
        let step2 := templateFilePhase env step1.1 template_files
        (step2.1, step1.2 ++ step2.2)

/-- The number of operations a short-circuiting loop performs: the position
of the first failing element plus one, or the whole list length if none
fails. -/
def stopCount {α : Type} (fail : α → Bool) : List α → Nat
  | [] => 0
  | a :: rest => if fail a then 1 else stopCount fail rest + 1

/-- The destination path of a mkdir operation. -/
def mkdirPath : RemoteOp → Option String
  | .mkdir p _ _ _ => some p
  | .copy _ _ _ _ _ => none

/-- Whether the module output behind an operation reported `failed: True`. -/
def opFailed (env : CopyEnv) : RemoteOp → Bool
  | .mkdir p _ _ _ => decide ((env.mkdirOutput p).failed = some true)
  | .copy s d _ _ _ => decide ((env.copyOutput s d).failed = some true)

/-- The module output behind an operation. -/
def opOutput (env : CopyEnv) : RemoteOp → TaskOutput
  | .mkdir p _ _ _ => env.mkdirOutput p
  | .copy s d _ _ _ => env.copyOutput s d

/-! ### Basic lemmas about the primitives -/

theorem pyIsAbs_pyJoin_root (b : String) : pyIsAbs (pyJoin "/" b) = true := by
  unfold pyJoin
  by_cases h : pyIsAbs b = true
  · rw [if_pos h]
    exact h
  · rw [if_neg h, if_pos (show ("/" : String) = "" ∨ ("/" : String).data.getLast? = some '/'
      from Or.inr rfl)]
    unfold pyIsAbs
    rw [String.data_append]
    rfl

/-! ### Auxiliary list lemmas -/

theorem dropWhile_append_all {α : Type} (p : α → Bool) (l₁ l₂ : List α)
    (h : ∀ a ∈ l₁, p a = true) :
    (l₁ ++ l₂).dropWhile p = l₂.dropWhile p := by
  induction l₁ with
  | nil => rfl
  | cons a t ih =>
      have ha : p a = true := h a (by simp)
      simp only [List.cons_append, List.dropWhile_cons, ha, if_true]
      exact ih (fun a ha' => h a (by simp [ha']))

theorem dropWhile_head_false {α : Type} (p : α → Bool) (l : List α) (a : α) (t : List α)
    (h : l.dropWhile p = a :: t) : p a = false := by
  induction l with
  | nil => simp [List.dropWhile] at h
  | cons x xs ih =>
      rw [List.dropWhile_cons] at h
      by_cases hx : p x = true
      · rw [if_pos hx] at h; exact ih h
      · rw [if_neg hx] at h
        injection h with h1 h2
        subst h1
        exact Bool.eq_false_iff.mpr hx

theorem takeWhile_congr {α : Type} (p q : α → Bool) (l : List α)
    (h : ∀ a ∈ l, p a = q a) : l.takeWhile p = l.takeWhile q := by
  induction l with
  | nil => rfl
  | cons a t ih =>
      have ha := h a (by simp)
      rw [List.takeWhile_cons, List.takeWhile_cons, ha,
        ih (fun x hx => h x (by simp [hx]))]

theorem noDoubleSlash_append_left (xs ys : List Char)
    (h : noDoubleSlash (xs ++ ys) = true) : noDoubleSlash xs = true := by
  induction xs with
  | nil => rfl
  | cons a t ih =>
      cases t with
      | nil => rfl
      | cons b r =>
          simp only [List.cons_append, noDoubleSlash, Bool.and_eq_true] at h ⊢
          exact ⟨h.1, ih h.2⟩

theorem noDoubleSlash_no_slash_before (xs ys : List Char)
    (h : noDoubleSlash (xs ++ '/' :: ys) = true) : xs.getLast? ≠ some '/' := by
  induction xs with
  | nil => simp
  | cons a t ih =>
      cases t with
      | nil =>
          simp only [List.cons_append, List.nil_append, noDoubleSlash,
            Bool.and_eq_true, Bool.not_eq_eq_eq_not, Bool.not_true] at h
          have := h.1
          simp only [List.getLast?_singleton, ne_eq, Option.some.injEq]
          intro hEq
          rw [hEq] at this
          simp at this
      | cons b r =>
          have h2 : noDoubleSlash ((b :: r) ++ '/' :: ys) = true := by
            simp only [List.cons_append, noDoubleSlash, Bool.and_eq_true] at h
            exact h.2
          have := ih h2
          simpa [List.getLast?_cons_cons] using this

/-! ### `dirname` on clean absolute paths -/

theorem cleanAbs_data (p : String) (h : CleanAbs p) :
    ∃ r, p.data = '/' :: r ∧ CleanRelL r := by
  obtain ⟨h1, h2⟩ := h
  cases hd : p.data with
  | nil => rw [hd] at h1; simp at h1
  | cons c t =>
      rw [hd] at h1 h2
      simp only [List.head?_cons, Option.some.injEq] at h1
      exact ⟨t, by rw [h1], h2⟩

theorem cleanAbs_ne_root (p : String) (h : CleanAbs p) : p ≠ "/" := by
  obtain ⟨r, hr, hclean⟩ := cleanAbs_data p h
  intro hEq
  rw [hEq] at hr
  injection hr with h1 h2
  exact hclean.1 h2.symm

theorem cleanAbs_length (p : String) (h : CleanAbs p) : 2 ≤ p.length := by
  obtain ⟨r, hr, hclean⟩ := cleanAbs_data p h
  have : p.length = r.length + 1 := by
    show p.data.length = _
    rw [hr]; simp
  rw [this]
  have : r ≠ [] := hclean.1
  have : 1 ≤ r.length := by
    cases r with
    | nil => exact absurd rfl this
    | cons a t => simp
  omega

/-- `dirname` of a clean absolute path with no slash in the tail is `"/"`. -/
theorem dirnameL_no_slash (r : List Char) (hns : '/' ∉ r) :
    dirnameL ('/' :: r) = ['/'] := by
  unfold dirnameL
  have hdrop : (('/' :: r).reverse.dropWhile (fun c => c ≠ '/')) = ['/'] := by
    rw [List.reverse_cons]
    rw [dropWhile_append_all _ _ _ (by
      intro a ha
      rw [List.mem_reverse] at ha
      simp only [ne_eq, decide_eq_true_eq]
      intro hEq; rw [hEq] at ha; exact hns ha)]
    rfl
  rw [hdrop]
  rfl

/-- `dirname` of a clean absolute path whose tail contains a slash: splitting
the tail `r` at its last slash as `r₁ ++ '/' :: r₂`, the result is
`'/' :: r₁`, which is again clean absolute. -/
theorem dirnameL_with_slash (r : List Char) (hr : CleanRelL r) (hs : '/' ∈ r) :
    ∃ r₁ r₂, r = r₁ ++ '/' :: r₂ ∧ '/' ∉ r₂ ∧ r₂ ≠ [] ∧ CleanRelL r₁ ∧
      dirnameL ('/' :: r) = '/' :: r₁ := by
  obtain ⟨hne, hhead, hlast, hnds⟩ := hr
  -- split `r.reverse` at the first slash
  set tk := r.reverse.takeWhile (fun c => c ≠ '/') with htk
  set dr := r.reverse.dropWhile (fun c => c ≠ '/') with hdr
  have hsplit : tk ++ dr = r.reverse := List.takeWhile_append_dropWhile _ _
  have htkmem : ∀ a ∈ tk, a ≠ '/' := by
    intro a ha
    have := List.mem_takeWhile_imp ha
    simpa using this
  have hdrne : dr ≠ [] := by
    intro hEq
    rw [hEq, List.append_nil] at hsplit
    have : '/' ∈ r.reverse := List.mem_reverse.mpr hs
    rw [← hsplit] at this
    exact htkmem _ this rfl
  obtain ⟨d0, dt, hdt⟩ : ∃ d0 dt, dr = d0 :: dt := by
    cases hdrc : dr with
    | nil => exact absurd hdrc hdrne
    | cons d0 dt => exact ⟨d0, dt, rfl⟩
  have hd0 : d0 = '/' := by
    have := dropWhile_head_false (fun c => decide (c ≠ '/')) r.reverse d0 dt (by
      rw [← hdr]; exact hdt)
    simpa using this
  have hreq : r = dt.reverse ++ '/' :: tk.reverse := by
    have h0 : r = (tk ++ dr).reverse := by rw [hsplit, List.reverse_reverse]
    rw [h0, hdt, hd0, List.reverse_append, List.reverse_cons, List.append_assoc]
    rfl
  have hr1ne : dt.reverse ≠ [] := by
    intro hEq
    rw [hEq] at hreq
    rw [hreq] at hhead
    simp at hhead
  have hr1head : dt.reverse.head? ≠ some '/' := by
    intro hEq
    rw [hreq, List.head?_append_of_ne_nil _ hr1ne] at hhead
    exact hhead hEq
  have hr1last : dt.reverse.getLast? ≠ some '/' :=
    noDoubleSlash_no_slash_before dt.reverse tk.reverse (by rw [← hreq]; exact hnds)
  have hr1nds : noDoubleSlash dt.reverse = true :=
    noDoubleSlash_append_left dt.reverse ('/' :: tk.reverse) (by rw [← hreq]; exact hnds)
  obtain ⟨c0, ct, hct⟩ : ∃ c0 ct, dt.reverse = c0 :: ct := by
    cases hc : dt.reverse with
    | nil => exact absurd hc hr1ne
    | cons c0 ct => exact ⟨c0, ct, rfl⟩
  have hc0 : c0 ≠ '/' := by
    intro hEq
    rw [hct, hEq] at hr1head
    exact hr1head rfl
  obtain ⟨e0, et, het⟩ : ∃ e0 et, dt = e0 :: et := by
    cases hc : dt with
    | nil => rw [hc] at hr1ne; exact absurd rfl hr1ne
    | cons e0 et => exact ⟨e0, et, rfl⟩
  have he0 : e0 ≠ '/' := by
    intro hEq
    have : dt.reverse.getLast? = dt.head? := by
      rw [List.getLast?_eq_head?_reverse, List.reverse_reverse]
    rw [this, het, hEq] at hr1last
    exact hr1last rfl
  refine ⟨dt.reverse, tk.reverse, hreq, ?_, ?_, ⟨hr1ne, hr1head, hr1last, hr1nds⟩, ?_⟩
  · intro hmem
    rw [List.mem_reverse] at hmem
    exact htkmem _ hmem rfl
  · -- tk.reverse ≠ [] since r does not end with '/'
    intro hEq
    have htknil : tk = [] := by
      cases htkc : tk with
      | nil => rfl
      | cons a t => rw [htkc] at hEq; simp at hEq
    have h1 : r.reverse = dr := by rw [← hsplit, htknil]; rfl
    have h2 : r.reverse = '/' :: dt := by rw [h1, hdt, hd0]
    have hlast' : r.getLast? = some '/' := by
      rw [List.getLast?_eq_head?_reverse, h2]; rfl
    exact hlast hlast'
  · -- the dirname computation itself
    have hrev : ('/' :: r).reverse = tk ++ '/' :: (dt ++ ['/']) := by
      rw [List.reverse_cons, ← hsplit, hdt, hd0, List.append_assoc]
      rfl
    have hdrop : ('/' :: r).reverse.dropWhile (fun c => c ≠ '/') = '/' :: (dt ++ ['/']) := by
      rw [hrev, dropWhile_append_all _ _ _ (by
        intro a ha
        simp only [ne_eq, decide_eq_true_eq]
        exact htkmem a ha)]
      rfl
    have hhd : ('/' :: (dt ++ ['/'])).reverse = '/' :: (dt.reverse ++ ['/']) := by
      simp [List.reverse_cons, List.reverse_append]
    have hnotall : (('/' :: (dt.reverse ++ ['/'])).all (fun c => c = '/')) = false := by
      rw [hct]
      simp only [List.all_cons, List.cons_append, Bool.and_eq_false_iff]
      right; left
      simp [hc0]
    unfold dirnameL
    rw [hdrop, hhd, if_neg (by rw [hnotall]; simp)]
    unfold pyRstripSlashL
    have h2 : ('/' :: (dt.reverse ++ ['/'])).reverse = '/' :: (dt ++ ['/']) := by
      simp [List.reverse_cons, List.reverse_append]
    rw [h2, List.dropWhile_cons, if_pos (by simp), het, List.cons_append,
      List.dropWhile_cons, if_neg (by simp [he0]), ← List.cons_append, ← het,
      List.reverse_append]
    rfl

theorem dirname_root : dirname "/" = "/" := by decide

theorem dirname_data (p : String) : (dirname p).data = dirnameL p.data := rfl

/-- On a clean absolute path, `dirname` yields `"/"` or a strictly shorter
clean absolute path. -/
theorem dirname_cleanAbs (p : String) (h : CleanAbs p) :
    (dirname p = "/" ∨ CleanAbs (dirname p)) ∧ (dirname p).length < p.length := by
  obtain ⟨r, hr, hclean⟩ := cleanAbs_data p h
  have hplen : p.length = r.length + 1 := by
    show p.data.length = _
    rw [hr]; simp
  by_cases hs : '/' ∈ r
  · obtain ⟨r₁, r₂, hsplit, hns₂, hne₂, hclean₁, hdir⟩ := dirnameL_with_slash r hclean hs
    have hd : (dirname p).data = '/' :: r₁ := by
      rw [dirname_data, hr, hdir]
    constructor
    · right
      constructor
      · rw [hd]; rfl
      · rw [hd]; exact hclean₁
    · have h1 : (dirname p).length = r₁.length + 1 := by
        show (dirname p).data.length = _
        rw [hd]; simp
      have h2 : r.length = r₁.length + 1 + r₂.length := by
        rw [hsplit]
        simp only [List.length_append, List.length_cons]
        omega
      have h3 : 1 ≤ r₂.length := by
        cases hc : r₂ with
        | nil => exact absurd hc hne₂
        | cons a t => simp
      omega
  · have hd : (dirname p).data = ['/'] := by
      rw [dirname_data, hr, dirnameL_no_slash r hs]
    constructor
    · left
      apply String.ext
      rw [hd]
    · have h1 : (dirname p).length = 1 := by
        show (dirname p).data.length = _
        rw [hd]; rfl
      have h2 : 1 ≤ r.length := by
        cases hc : r with
        | nil => exact absurd hc hclean.1
        | cons a t => simp
      omega

/-! ### General `dirname` length facts (used only to certify that the fuel
given to the embedded while loop always suffices) -/

theorem revDropRev_length_le (l : List Char) (q : Char → Bool) :
    ((l.reverse.dropWhile q).reverse).length ≤ l.length := by
  rw [List.length_reverse]
  calc (l.reverse.dropWhile q).length ≤ l.reverse.length :=
        ((List.dropWhile_suffix q).sublist).length_le
    _ = l.length := List.length_reverse l

theorem revDropRev_eq_of_length (l : List Char) (q : Char → Bool)
    (h : ((l.reverse.dropWhile q).reverse).length = l.length) :
    (l.reverse.dropWhile q).reverse = l := by
  have h1 : (l.reverse.dropWhile q).length = l.reverse.length := by
    rw [List.length_reverse] at h ⊢
    rw [h]
  have h2 : l.reverse.dropWhile q = l.reverse :=
    ((List.dropWhile_suffix q).sublist).eq_of_length h1
  rw [h2, List.reverse_reverse]

theorem dirnameL_length_le (p : List Char) : (dirnameL p).length ≤ p.length := by
  unfold dirnameL
  split
  · exact revDropRev_length_le p _
  · unfold pyRstripSlashL
    calc (((p.reverse.dropWhile (fun c => c ≠ '/')).reverse).reverse.dropWhile
            (fun c => c = '/')).reverse.length
        ≤ ((p.reverse.dropWhile (fun c => c ≠ '/')).reverse).length :=
          revDropRev_length_le _ _
      _ ≤ p.length := revDropRev_length_le p _

theorem dirnameL_eq_of_length_eq (p : List Char)
    (h : (dirnameL p).length = p.length) : dirnameL p = p := by
  unfold dirnameL at h ⊢
  split at h
  · rw [if_pos (by assumption)]
    exact revDropRev_eq_of_length p _ h
  · rw [if_neg (by assumption)]
    unfold pyRstripSlashL at h ⊢
    have hhead : ((p.reverse.dropWhile (fun c => c ≠ '/')).reverse).length = p.length := by
      have h1 := revDropRev_length_le ((p.reverse.dropWhile (fun c => c ≠ '/')).reverse)
        (fun c => c = '/')
      have h2 := revDropRev_length_le p (fun c => c ≠ '/')
      omega
    have hheq : (p.reverse.dropWhile (fun c => c ≠ '/')).reverse = p :=
      revDropRev_eq_of_length p _ hhead
    rw [hheq] at h ⊢
    exact revDropRev_eq_of_length p _ h

theorem dirname_length_le (s : String) : (dirname s).length ≤ s.length :=
  dirnameL_length_le s.data

theorem dirname_eq_of_length_eq (s : String)
    (h : (dirname s).length = s.length) : dirname s = s :=
  String.ext (dirnameL_eq_of_length_eq s.data h)

theorem strictAncestors_root : strictAncestors "/" = [] := by decide

theorem dirnameChain_zero (p : String) : dirnameChain 0 p = [] := rfl

theorem dirnameChain_succ (fuel : Nat) (p : String) :
    dirnameChain (fuel + 1) p =
      if (dirname p).length < p.length then dirname p :: dirnameChain fuel (dirname p)
      else [] := rfl

theorem dirnameChain_eq_aux : ∀ (n : Nat) (p : String), p.length = n →
    (CleanAbs p ∨ p = "/") → ∀ fuel, p.length ≤ fuel →
    dirnameChain fuel p = strictAncestors p := by
  intro n
  induction n using Nat.strong_induction_on with
  | _ n ih =>
    intro p hn hp fuel hfuel
    rcases hp with hclean | hroot
    · have hlt := (dirname_cleanAbs p hclean).2
      have hkind := (dirname_cleanAbs p hclean).1
      have hlen2 := cleanAbs_length p hclean
      obtain ⟨f, hf⟩ : ∃ f, fuel = f + 1 := by
        cases fuel with
        | zero => omega
        | succ f => exact ⟨f, rfl⟩
      obtain ⟨m, hm⟩ : ∃ m, p.length = m + 1 := by
        cases hpl : p.length with
        | zero => omega
        | succ m => exact ⟨m, rfl⟩
      have hstep1 : dirnameChain fuel p = dirname p :: dirnameChain f (dirname p) := by
        rw [hf, dirnameChain_succ, if_pos hlt]
      have hstep2 : strictAncestors p = dirname p :: dirnameChain m (dirname p) := by
        show dirnameChain p.length p = _
        rw [hm, dirnameChain_succ, if_pos hlt]
      rw [hstep1, hstep2]
      have hkind' : CleanAbs (dirname p) ∨ dirname p = "/" := hkind.symm
      have h1 : dirnameChain f (dirname p) = strictAncestors (dirname p) :=
        ih (dirname p).length (by omega) (dirname p) rfl hkind' f (by omega)
      have h2 : dirnameChain m (dirname p) = strictAncestors (dirname p) :=
        ih (dirname p).length (by omega) (dirname p) rfl hkind' m (by omega)
      rw [h1, h2]
    · subst hroot
      rw [strictAncestors_root]
      cases fuel with
      | zero => rfl
      | succ f =>
          rw [dirnameChain_succ, if_neg (by rw [dirname_root]; omega)]

theorem dirnameChain_eq (p : String) (hp : CleanAbs p ∨ p = "/") (fuel : Nat)
    (hfuel : p.length ≤ fuel) : dirnameChain fuel p = strictAncestors p :=
  dirnameChain_eq_aux p.length p rfl hp fuel hfuel

theorem strictAncestors_cleanAbs (p : String) (h : CleanAbs p) :
    strictAncestors p = dirname p :: strictAncestors (dirname p) := by
  have hlt := (dirname_cleanAbs p h).2
  have hkind := (dirname_cleanAbs p h).1
  obtain ⟨m, hm⟩ : ∃ m, p.length = m + 1 := by
    have := cleanAbs_length p h
    cases hpl : p.length with
    | zero => omega
    | succ m => exact ⟨m, rfl⟩
  show dirnameChain p.length p = _
  rw [hm, dirnameChain_succ, if_pos hlt]
  rw [dirnameChain_eq (dirname p) hkind.symm m (by omega)]

theorem strictAncestors_master_aux : ∀ (n : Nat) (p : String), p.length = n → CleanAbs p →
    ("/" ∈ strictAncestors p) ∧
    (∀ x ∈ strictAncestors p, (x = "/" ∨ CleanAbs x) ∧ x.length < p.length ∧
      ∀ y ∈ strictAncestors x, y ∈ strictAncestors p) := by
  intro n
  induction n using Nat.strong_induction_on with
  | _ n ih =>
    intro p hn hclean
    have hunfold := strictAncestors_cleanAbs p hclean
    have hlt := (dirname_cleanAbs p hclean).2
    rcases (dirname_cleanAbs p hclean).1 with hroot | hdclean
    · rw [hunfold, hroot, strictAncestors_root]
      constructor
      · exact List.mem_singleton.mpr rfl
      · intro x hx
        have hx' : x = "/" := List.mem_singleton.mp hx
        subst hx'
        refine ⟨Or.inl rfl, ?_, ?_⟩
        · have := cleanAbs_length p hclean
          have hlen1 : ("/" : String).length = 1 := rfl
          omega
        · rw [strictAncestors_root]
          intro y hy
          cases hy
    · have ihd := ih (dirname p).length (by omega) (dirname p) rfl hdclean
      rw [hunfold]
      constructor
      · exact List.mem_cons_of_mem _ ihd.1
      · intro x hx
        rcases List.mem_cons.mp hx with hxd | hxm
        · subst hxd
          refine ⟨Or.inr hdclean, hlt, ?_⟩
          intro y hy
          exact List.mem_cons_of_mem _ hy
        · obtain ⟨hkind, hlen, hclosure⟩ := ihd.2 x hxm
          refine ⟨hkind, by omega, ?_⟩
          intro y hy
          exact List.mem_cons_of_mem _ (hclosure y hy)

theorem strictAncestors_root_mem (p : String) (h : CleanAbs p) :
    "/" ∈ strictAncestors p :=
  (strictAncestors_master_aux p.length p rfl h).1

theorem strictAncestors_mem_kind (p x : String) (h : CleanAbs p)
    (hx : x ∈ strictAncestors p) : x = "/" ∨ CleanAbs x :=
  ((strictAncestors_master_aux p.length p rfl h).2 x hx).1

theorem strictAncestors_mem_length (p x : String) (h : CleanAbs p)
    (hx : x ∈ strictAncestors p) : x.length < p.length :=
  ((strictAncestors_master_aux p.length p rfl h).2 x hx).2.1

theorem strictAncestors_closed (p x : String) (h : CleanAbs p)
    (hx : x ∈ strictAncestors p) :
    ∀ y ∈ strictAncestors x, y ∈ strictAncestors p :=
  ((strictAncestors_master_aux p.length p rfl h).2 x hx).2.2

theorem strictAncestors_pairwise_aux : ∀ (n : Nat) (p : String), p.length = n → CleanAbs p →
    (strictAncestors p).Pairwise (fun a b => b.length < a.length) := by
  intro n
  induction n using Nat.strong_induction_on with
  | _ n ih =>
    intro p hn hclean
    rw [strictAncestors_cleanAbs p hclean]
    have hlt := (dirname_cleanAbs p hclean).2
    rw [List.pairwise_cons]
    rcases (dirname_cleanAbs p hclean).1 with hroot | hdclean
    · rw [hroot, strictAncestors_root]
      exact ⟨fun b hb => absurd hb (List.not_mem_nil b), List.Pairwise.nil⟩
    · constructor
      · intro b hb
        exact strictAncestors_mem_length (dirname p) b hdclean hb
      · exact ih (dirname p).length (by omega) (dirname p) rfl hdclean

theorem strictAncestors_pairwise (p : String) (h : CleanAbs p) :
    (strictAncestors p).Pairwise (fun a b => b.length < a.length) :=
  strictAncestors_pairwise_aux p.length p rfl h

theorem strictAncestors_nodup (p : String) (h : CleanAbs p) :
    (strictAncestors p).Nodup :=
  (strictAncestors_pairwise p h).imp (fun hab => by
    intro hEq
    subst hEq
    omega)

/-- Any suffix of the ancestor chain, cut just after an element `z`, equals
the ancestor chain of `z`. -/
theorem strictAncestors_suffix_aux : ∀ (n : Nat) (p : String), p.length = n → CleanAbs p →
    ∀ (l₁ : List String) (z : String) (l₂ : List String),
      strictAncestors p = l₁ ++ z :: l₂ → l₂ = strictAncestors z := by
  intro n
  induction n using Nat.strong_induction_on with
  | _ n ih =>
    intro p hn hclean l₁ z l₂ hEq
    rw [strictAncestors_cleanAbs p hclean] at hEq
    have hlt := (dirname_cleanAbs p hclean).2
    cases l₁ with
    | nil =>
        simp only [List.nil_append] at hEq
        injection hEq with h1 h2
        rw [← h1, ← h2]
    | cons w l₁' =>
        simp only [List.cons_append] at hEq
        injection hEq with h1 h2
        rcases (dirname_cleanAbs p hclean).1 with hroot | hdclean
        · rw [hroot, strictAncestors_root] at h2
          exact absurd h2.symm (List.append_ne_nil_of_right_ne_nil l₁' (by simp))
        · exact ih (dirname p).length (by omega) (dirname p) rfl hdclean l₁' z l₂ h2

theorem strictAncestors_suffix (p : String) (h : CleanAbs p)
    (l₁ : List String) (z : String) (l₂ : List String)
    (hEq : strictAncestors p = l₁ ++ z :: l₂) : l₂ = strictAncestors z :=
  strictAncestors_suffix_aux p.length p rfl h l₁ z l₂ hEq

theorem parentChainLoop_fuel_aux : ∀ (n : Nat) (cursor : String), cursor.length = n →
    ∀ (fuel₁ fuel₂ : Nat) (output : List String),
      cursor.length + 2 ≤ fuel₁ → cursor.length + 2 ≤ fuel₂ →
      parentChainLoop fuel₁ cursor output = parentChainLoop fuel₂ cursor output := by
  intro n
  induction n using Nat.strong_induction_on with
  | _ n ih =>
    intro cursor hn fuel₁ fuel₂ output h₁ h₂
    obtain ⟨f₁, hf₁⟩ : ∃ f, fuel₁ = f + 1 := by
      cases fuel₁ with
      | zero => omega
      | succ f => exact ⟨f, rfl⟩
    obtain ⟨f₂, hf₂⟩ : ∃ f, fuel₂ = f + 1 := by
      cases fuel₂ with
      | zero => omega
      | succ f => exact ⟨f, rfl⟩
    subst hf₁; subst hf₂
    show (if dirname cursor ∈ output then output
      else parentChainLoop f₁ (dirname cursor) (output ++ [dirname cursor])) =
      (if dirname cursor ∈ output then output
      else parentChainLoop f₂ (dirname cursor) (output ++ [dirname cursor]))
    by_cases hmem : dirname cursor ∈ output
    · rw [if_pos hmem, if_pos hmem]
    · rw [if_neg hmem, if_neg hmem]
      have hle := dirname_length_le cursor
      by_cases hlt : (dirname cursor).length < cursor.length
      · exact ih (dirname cursor).length (by omega) (dirname cursor) rfl f₁ f₂ _
          (by omega) (by omega)
      · have hEqLen : (dirname cursor).length = cursor.length := by omega
        have hfix : dirname cursor = cursor := dirname_eq_of_length_eq cursor hEqLen
        obtain ⟨g₁, hg₁⟩ : ∃ g, f₁ = g + 1 := by
          cases f₁ with
          | zero => omega
          | succ g => exact ⟨g, rfl⟩
        obtain ⟨g₂, hg₂⟩ : ∃ g, f₂ = g + 1 := by
          cases f₂ with
          | zero => omega
          | succ g => exact ⟨g, rfl⟩
        subst hg₁; subst hg₂
        rw [hfix]
        show (if dirname cursor ∈ output ++ [cursor] then output ++ [cursor]
          else parentChainLoop g₁ (dirname cursor) ((output ++ [cursor]) ++ [dirname cursor])) =
          (if dirname cursor ∈ output ++ [cursor] then output ++ [cursor]
          else parentChainLoop g₂ (dirname cursor) ((output ++ [cursor]) ++ [dirname cursor]))
        have hmem2 : dirname cursor ∈ output ++ [cursor] := by
          rw [hfix]
          exact List.mem_append.mpr (Or.inr (List.mem_singleton.mpr rfl))
        rw [if_pos hmem2, if_pos hmem2]

/-- The fueled loop is fuel-independent once the fuel reaches
`cursor.length + 2`; this certifies the embedding of the unbounded Python
`while` loop. -/
theorem parentChainLoop_fuel (cursor : String) (fuel₁ fuel₂ : Nat) (output : List String)
    (h₁ : cursor.length + 2 ≤ fuel₁) (h₂ : cursor.length + 2 ≤ fuel₂) :
    parentChainLoop fuel₁ cursor output = parentChainLoop fuel₂ cursor output :=
  parentChainLoop_fuel_aux cursor.length cursor rfl fuel₁ fuel₂ output h₁ h₂

/-- Closed form of one run of the while loop on a clean absolute cursor:
it appends the ancestors of `cursor` in chain order, stopping at the first
one already present in `output`. -/
theorem parentChainLoop_closed_aux : ∀ (n : Nat) (cursor : String), cursor.length = n →
    CleanAbs cursor → ∀ (fuel : Nat) (output : List String), cursor.length ≤ fuel →
    parentChainLoop fuel cursor output =
      output ++ (strictAncestors cursor).takeWhile (fun x => decide (x ∉ output)) := by
  intro n
  induction n using Nat.strong_induction_on with
  | _ n ih =>
    intro cursor hn hclean fuel output hfuel
    have hlen2 := cleanAbs_length cursor hclean
    obtain ⟨f, hf⟩ : ∃ f, fuel = f + 1 := by
      cases fuel with
      | zero => omega
      | succ f => exact ⟨f, rfl⟩
    subst hf
    have hunfold := strictAncestors_cleanAbs cursor hclean
    have hlt := (dirname_cleanAbs cursor hclean).2
    show (if dirname cursor ∈ output then output
      else parentChainLoop f (dirname cursor) (output ++ [dirname cursor])) = _
    by_cases hmem : dirname cursor ∈ output
    · rw [if_pos hmem, hunfold, List.takeWhile_cons, if_neg (by simp [hmem]),
        List.append_nil]
    · rw [if_neg hmem, hunfold, List.takeWhile_cons, if_pos (by simp [hmem])]
      rcases (dirname_cleanAbs cursor hclean).1 with hroot | hdclean
      · rw [hroot, strictAncestors_root]
        obtain ⟨g, hg⟩ : ∃ g, f = g + 1 := by
          cases f with
          | zero => omega
          | succ g => exact ⟨g, rfl⟩
        subst hg
        show (if dirname "/" ∈ output ++ ["/"] then output ++ ["/"]
          else parentChainLoop g (dirname "/") ((output ++ ["/"]) ++ [dirname "/"])) = _
        rw [if_pos (by
          rw [dirname_root]
          exact List.mem_append.mpr (Or.inr (List.mem_singleton.mpr rfl)))]
        simp
      · have hstep := ih (dirname cursor).length (by omega) (dirname cursor) rfl hdclean
          f (output ++ [dirname cursor]) (by omega)
        rw [hstep]
        have hcongr : (strictAncestors (dirname cursor)).takeWhile
            (fun x => decide (x ∉ output ++ [dirname cursor])) =
            (strictAncestors (dirname cursor)).takeWhile (fun x => decide (x ∉ output)) := by
          apply takeWhile_congr
          intro a ha
          have halen := strictAncestors_mem_length (dirname cursor) a hdclean ha
          have hane : a ≠ dirname cursor := by
            intro hEq
            rw [hEq] at halen
            omega
          simp [List.mem_append, hane]
        rw [hcongr, List.append_assoc, List.singleton_append]

theorem parentChainLoop_closed (cursor : String) (hclean : CleanAbs cursor)
    (fuel : Nat) (output : List String) (hfuel : cursor.length ≤ fuel) :
    parentChainLoop fuel cursor output =
      output ++ (strictAncestors cursor).takeWhile (fun x => decide (x ∉ output)) :=
  parentChainLoop_closed_aux cursor.length cursor rfl hclean fuel output hfuel

theorem getAllParentDirs_fold : ∀ (paths : List String) (output : List String),
    (∀ p ∈ paths, CleanAbs p) → output.Nodup →
    (∀ x ∈ output, ∀ y ∈ strictAncestors x, y ∈ output) →
    ((paths.foldl (fun o p => parentChainLoop (p.length + 2) p o) output).Nodup ∧
     (∀ x ∈ paths.foldl (fun o p => parentChainLoop (p.length + 2) p o) output,
        ∀ y ∈ strictAncestors x,
          y ∈ paths.foldl (fun o p => parentChainLoop (p.length + 2) p o) output) ∧
     (∀ x, x ∈ paths.foldl (fun o p => parentChainLoop (p.length + 2) p o) output ↔
        x ∈ output ∨ ∃ p ∈ paths, x ∈ strictAncestors p)) := by
  intro paths
  induction paths with
  | nil =>
      intro output hclean hnd hcl
      refine ⟨hnd, hcl, ?_⟩
      intro x
      simp
  | cons p rest ih =>
      intro output hclean hnd hcl
      have hp : CleanAbs p := hclean p (by simp)
      have hstep : parentChainLoop (p.length + 2) p output =
          output ++ (strictAncestors p).takeWhile (fun x => decide (x ∉ output)) :=
        parentChainLoop_closed p hp (p.length + 2) output (by omega)
      set tw := (strictAncestors p).takeWhile (fun x => decide (x ∉ output)) with htw
      have hA : ∀ x ∈ tw, x ∈ strictAncestors p := by
        intro x hx
        exact (List.takeWhile_sublist _).subset hx
      have hB : ∀ x ∈ tw, x ∉ output := by
        intro x hx
        have := List.mem_takeWhile_imp hx
        simpa using this
      have hC : ∀ y ∈ strictAncestors p, y ∈ output ++ tw := by
        intro y hy
        have hsplit : tw ++ (strictAncestors p).dropWhile (fun x => decide (x ∉ output)) =
            strictAncestors p := List.takeWhile_append_dropWhile _ _
        rw [← hsplit] at hy
        rcases List.mem_append.mp hy with hyt | hyd
        · exact List.mem_append.mpr (Or.inr hyt)
        · -- the dropped part is contained in `output`
          cases hdw : (strictAncestors p).dropWhile (fun x => decide (x ∉ output)) with
          | nil => rw [hdw] at hyd; cases hyd
          | cons z zs =>
              have hz : z ∈ output := by
                have := dropWhile_head_false (fun x => decide (x ∉ output))
                  (strictAncestors p) z zs hdw
                simpa using this
              have hzs : zs = strictAncestors z := by
                apply strictAncestors_suffix p hp tw z zs
                rw [← hsplit, hdw]
              rw [hdw] at hyd
              rcases List.mem_cons.mp hyd with hyz | hyzs
              · subst hyz
                exact List.mem_append.mpr (Or.inl hz)
              · rw [hzs] at hyzs
                exact List.mem_append.mpr (Or.inl (hcl z hz y hyzs))
      have hD : (output ++ tw).Nodup := by
        apply List.Nodup.append hnd
        · exact (List.takeWhile_sublist _).nodup (strictAncestors_nodup p hp)
        · rw [List.disjoint_left]
          intro a ha hat
          exact hB a hat ha
      have hE : ∀ x ∈ output ++ tw, ∀ y ∈ strictAncestors x, y ∈ output ++ tw := by
        intro x hx y hy
        rcases List.mem_append.mp hx with hxo | hxt
        · exact List.mem_append.mpr (Or.inl (hcl x hxo y hy))
        · exact hC y (strictAncestors_closed p x hp (hA x hxt) y hy)
      have hF : ∀ x, x ∈ output ++ tw ↔ x ∈ output ∨ x ∈ strictAncestors p := by
        intro x
        constructor
        · intro hx
          rcases List.mem_append.mp hx with hxo | hxt
          · exact Or.inl hxo
          · exact Or.inr (hA x hxt)
        · intro hx
          rcases hx with hxo | hxp
          · exact List.mem_append.mpr (Or.inl hxo)
          · exact hC x hxp
      have hrec := ih (output ++ tw) (fun q hq => hclean q (by simp [hq])) hD hE
      rw [List.foldl_cons, hstep]
      refine ⟨hrec.1, hrec.2.1, ?_⟩
      intro x
      rw [hrec.2.2 x, hF x]
      constructor
      · rintro ((hxo | hxp) | ⟨q, hq, hxq⟩)
        · exact Or.inl hxo
        · exact Or.inr ⟨p, by simp, hxp⟩
        · exact Or.inr ⟨q, by simp [hq], hxq⟩
      · rintro (hxo | ⟨q, hq, hxq⟩)
        · exact Or.inl (Or.inl hxo)
        · rcases List.mem_cons.mp hq with hqp | hqr
          · subst hqp
            exact Or.inl (Or.inr hxq)
          · exact Or.inr ⟨q, hqr, hxq⟩

/-- Characterisation of `_get_all_parent_dirs` on clean absolute inputs:
no duplicates, and the members are exactly the strict ancestors (root
included) of the given paths. -/
theorem getAllParentDirs_spec (paths : List String) (hclean : ∀ p ∈ paths, CleanAbs p) :
    (getAllParentDirs paths).Nodup ∧
    (∀ x, x ∈ getAllParentDirs paths ↔ ∃ p ∈ paths, x ∈ strictAncestors p) := by
  have h := getAllParentDirs_fold paths [] hclean List.nodup_nil (by intro x hx; cases hx)
  refine ⟨h.1, ?_⟩
  intro x
  rw [show getAllParentDirs paths =
    paths.foldl (fun o p => parentChainLoop (p.length + 2) p o) [] from rfl, h.2.2 x]
  simp

theorem sortedInsertLen_perm (a : String) (l : List String) :
    (sortedInsertLen a l).Perm (a :: l) := by
  induction l with
  | nil => exact List.Perm.refl _
  | cons b rest ih =>
      show (if b.length ≤ a.length then b :: sortedInsertLen a rest else a :: b :: rest).Perm _
      by_cases h : b.length ≤ a.length
      · rw [if_pos h]
        exact (ih.cons b).trans (List.Perm.swap a b rest)
      · rw [if_neg h]

theorem pySortedKeyLen_perm_aux : ∀ (l acc : List String),
    (l.foldl (fun acc x => sortedInsertLen x acc) acc).Perm (acc ++ l) := by
  intro l
  induction l with
  | nil => intro acc; simp
  | cons x xs ih =>
      intro acc
      rw [List.foldl_cons]
      have h1 := ih (sortedInsertLen x acc)
      have h2 : (sortedInsertLen x acc ++ xs).Perm ((x :: acc) ++ xs) :=
        (sortedInsertLen_perm x acc).append_right xs
      have h3 : ((x :: acc) ++ xs).Perm (acc ++ x :: xs) := List.perm_middle.symm
      exact (h1.trans h2).trans h3

theorem pySortedKeyLen_perm (l : List String) : (pySortedKeyLen l).Perm l := by
  have h := pySortedKeyLen_perm_aux l []
  simpa using h

theorem sortedInsertLen_sorted (a : String) (l : List String)
    (h : l.Pairwise (fun x y => x.length ≤ y.length)) :
    (sortedInsertLen a l).Pairwise (fun x y => x.length ≤ y.length) := by
  induction l with
  | nil => simp [sortedInsertLen]
  | cons b rest ih =>
      rw [List.pairwise_cons] at h
      show List.Pairwise _ (if b.length ≤ a.length then b :: sortedInsertLen a rest
        else a :: b :: rest)
      by_cases hb : b.length ≤ a.length
      · rw [if_pos hb, List.pairwise_cons]
        constructor
        · intro c hc
          have hc' : c ∈ a :: rest := (sortedInsertLen_perm a rest).mem_iff.mp hc
          rcases List.mem_cons.mp hc' with hca | hcr
          · subst hca; exact hb
          · exact h.1 c hcr
        · exact ih h.2
      · rw [if_neg hb, List.pairwise_cons]
        have hab : a.length ≤ b.length := by omega
        constructor
        · intro c hc
          rcases List.mem_cons.mp hc with hcb | hcr
          · subst hcb; exact hab
          · exact le_trans hab (h.1 c hcr)
        · exact List.pairwise_cons.mpr h

theorem pySortedKeyLen_sorted_aux : ∀ (l acc : List String),
    acc.Pairwise (fun x y => x.length ≤ y.length) →
    (l.foldl (fun acc x => sortedInsertLen x acc) acc).Pairwise
      (fun x y => x.length ≤ y.length) := by
  intro l
  induction l with
  | nil => intro acc h; exact h
  | cons x xs ih =>
      intro acc h
      rw [List.foldl_cons]
      exact ih _ (sortedInsertLen_sorted x acc h)

theorem pySortedKeyLen_sorted (l : List String) :
    (pySortedKeyLen l).Pairwise (fun x y => x.length ≤ y.length) :=
  pySortedKeyLen_sorted_aux l [] List.Pairwise.nil

/-- Full characterisation of the computed destination-directory list for a
nonempty set of clean absolute destination files. -/
theorem destinationDirsPipeline_props (files : List String) (hne : files ≠ [])
    (hclean : ∀ f ∈ files, CleanAbs f) :
    ∃ dirs, destinationDirsPipeline files = some dirs ∧
      (∀ d, d ∈ dirs ↔ d ≠ "/" ∧ ∃ f ∈ files, d ∈ strictAncestors f) ∧
      dirs.Nodup ∧ "/" ∉ dirs ∧
      dirs.Pairwise (fun a b => a.length ≤ b.length) ∧
      (∀ d ∈ dirs, CleanAbs d) ∧
      dirs.Pairwise (fun a b => b ∉ strictAncestors a) := by
  obtain ⟨hnodup, hmem⟩ := getAllParentDirs_spec files hclean
  have hperm := pySortedKeyLen_perm (getAllParentDirs files)
  have hsortnodup : (pySortedKeyLen (getAllParentDirs files)).Nodup :=
    hperm.nodup_iff.mpr hnodup
  have hsortmem : ∀ x, x ∈ pySortedKeyLen (getAllParentDirs files) ↔
      ∃ f ∈ files, x ∈ strictAncestors f := by
    intro x
    rw [hperm.mem_iff]
    exact hmem x
  have hrootmem : "/" ∈ pySortedKeyLen (getAllParentDirs files) := by
    rw [hsortmem]
    obtain ⟨f, hf⟩ : ∃ f, f ∈ files := List.exists_mem_of_ne_nil files hne
    exact ⟨f, hf, strictAncestors_root_mem f (hclean f hf)⟩
  have hcleanmem : ∀ d ∈ (pySortedKeyLen (getAllParentDirs files)).erase "/", CleanAbs d := by
    intro d hd
    have hd' := hsortnodup.mem_erase_iff.mp hd
    obtain ⟨f, hf, hdf⟩ := (hsortmem d).mp hd'.2
    rcases strictAncestors_mem_kind f d (hclean f hf) hdf with hroot | hcleand
    · exact absurd hroot hd'.1
    · exact hcleand
  refine ⟨(pySortedKeyLen (getAllParentDirs files)).erase "/", ?_, ?_, ?_, ?_, ?_,
    hcleanmem, ?_⟩
  · unfold destinationDirsPipeline pyRemove
    rw [if_pos hrootmem]
  · intro d
    rw [hsortnodup.mem_erase_iff, hsortmem]
  · exact (List.erase_sublist "/" _).nodup hsortnodup
  · intro hmem'
    exact ((hsortnodup.mem_erase_iff.mp hmem').1) rfl
  · exact List.Pairwise.sublist (List.erase_sublist "/" _) (pySortedKeyLen_sorted _)
  · -- no later element is a strict ancestor of an earlier one
    have hpw := List.Pairwise.sublist (List.erase_sublist "/" _)
      (pySortedKeyLen_sorted (getAllParentDirs files))
    apply hpw.imp_of_mem
    intro a b ha hb hab hmem'
    have hcleana : CleanAbs a := hcleanmem a ha
    have := strictAncestors_mem_length a b hcleana hmem'
    omega

/-! ### Characterisation of the driver phases -/

theorem updateResultFromTask_failed (r : RunResult) (t : TaskOutput) :
    (updateResultFromTask r t).failed = (r.failed || decide (t.failed = some true)) := by
  unfold updateResultFromTask
  by_cases hc : t.changed = some true <;> by_cases hf : t.failed = some true <;>
    cases hm : t.msg <;> cases hd : t.diff <;>
      simp [hc, hf, doSaveDiff, hd] <;> split <;> simp

theorem foldl_update_failed (ts : List TaskOutput) :
    ∀ (r : RunResult), (ts.foldl updateResultFromTask r).failed =
      (r.failed || ts.any (fun t => decide (t.failed = some true))) := by
  induction ts with
  | nil => intro r; simp
  | cons t rest ih =>
      intro r
      rw [List.foldl_cons, ih, updateResultFromTask_failed]
      simp [Bool.or_assoc]

theorem stopCount_le {α : Type} (fail : α → Bool) (l : List α) :
    stopCount fail l ≤ l.length := by
  induction l with
  | nil => simp [stopCount]
  | cons a rest ih =>
      show (if fail a then 1 else stopCount fail rest + 1) ≤ rest.length + 1
      split
      · omega
      · omega

theorem stopCount_eq_length_of_ok {α : Type} (fail : α → Bool) (l : List α)
    (h : ∀ x ∈ l, fail x = false) : stopCount fail l = l.length := by
  induction l with
  | nil => rfl
  | cons a rest ih =>
      show (if fail a then 1 else stopCount fail rest + 1) = rest.length + 1
      rw [if_neg (by rw [h a (by simp)]; simp)]
      rw [ih (fun x hx => h x (by simp [hx]))]

theorem any_take_stopCount_eq_false_iff {α : Type} (fail : α → Bool) (l : List α) :
    (l.take (stopCount fail l)).any fail = false ↔ ∀ x ∈ l, fail x = false := by
  induction l with
  | nil => simp
  | cons a rest ih =>
      show ((a :: rest).take (if fail a then 1 else stopCount fail rest + 1)).any fail
        = false ↔ _
      by_cases hfa : fail a = true
      · rw [if_pos hfa]
        simp [hfa]
      · have hfa' : fail a = false := by
          cases h : fail a
          · rfl
          · exact absurd h hfa
        rw [if_neg hfa]
        simp only [List.take_succ_cons, List.any_cons, hfa', Bool.false_or]
        rw [ih]
        constructor
        · intro h x hx
          rcases List.mem_cons.mp hx with hxa | hxr
          · subst hxa; exact hfa'
          · exact h x hxr
        · intro h x hx
          exact h x (by simp [hx])

theorem mem_take_stopCount_dropLast {α : Type} (fail : α → Bool) (l : List α) :
    ∀ x ∈ (l.take (stopCount fail l)).dropLast, fail x = false := by
  induction l with
  | nil => intro x hx; simp at hx
  | cons a rest ih =>
      show ∀ x ∈ ((a :: rest).take (if fail a then 1 else stopCount fail rest + 1)).dropLast,
        fail x = false
      by_cases hfa : fail a = true
      · rw [if_pos hfa]
        intro x hx
        simp at hx
      · have hfa' : fail a = false := by
          cases h : fail a
          · rfl
          · exact absurd h hfa
        rw [if_neg hfa]
        simp only [List.take_succ_cons]
        intro x hx
        cases hrt : rest.take (stopCount fail rest) with
        | nil => rw [hrt] at hx; simp at hx
        | cons b t =>
            rw [hrt] at hx
            rw [show (a :: b :: t).dropLast = a :: (b :: t).dropLast from rfl] at hx
            rcases List.mem_cons.mp hx with hxa | hxt
            · subst hxa; exact hfa'
            · exact ih x (by rw [hrt]; exact hxt)

/-- The directory loop in closed form: it processes the length-`stopCount`
initial segment, folding the task outputs into the accumulator and issuing
one mkdir per processed directory. -/
theorem dirPhase_eq (env : CopyEnv) (ra : ResolvedArgs) :
    ∀ (ds : List String) (r : RunResult), r.failed = false →
    dirPhase env ra r ds =
      ((((ds.take (stopCount (fun d => decide ((env.mkdirOutput d).failed = some true)) ds)).map
          env.mkdirOutput).foldl updateResultFromTask r),
       (ds.take (stopCount (fun d => decide ((env.mkdirOutput d).failed = some true)) ds)).map
          (dirOpOf ra)) := by
  intro ds
  induction ds with
  | nil => intro r hr; rfl
  | cons d rest ih =>
      intro r hr
      show (let r' := updateResultFromTask r (env.mkdirOutput d);
        if r'.failed then (r', [dirOpOf ra d])
        else
          let next := dirPhase env ra r' rest
          (next.1, dirOpOf ra d :: next.2)) = _
      have hfailed : (updateResultFromTask r (env.mkdirOutput d)).failed =
          decide ((env.mkdirOutput d).failed = some true) := by
        rw [updateResultFromTask_failed, hr, Bool.false_or]
      by_cases hdf : ((env.mkdirOutput d).failed = some true)
      · have hdt : decide ((env.mkdirOutput d).failed = some true) = true := by simp [hdf]
        simp only [hfailed, hdt, if_true, stopCount]
        rfl
      · have hdf' : decide ((env.mkdirOutput d).failed = some true) = false := by
          simp [hdf]
        simp only [hfailed, hdf', Bool.false_eq_true, if_false, stopCount]
        rw [ih (updateResultFromTask r (env.mkdirOutput d)) (by rw [hfailed, hdf'])]
        simp only [List.take_succ_cons, List.map_cons, List.foldl_cons]

/-- The file loop in closed form. -/
theorem filePhase_eq (env : CopyEnv) (ra : ResolvedArgs) :
    ∀ (sds : List (String × String)) (r : RunResult), r.failed = false →
    filePhase env ra r sds =
      ((((sds.take (stopCount (fun sd =>
            decide ((env.copyOutput sd.1 sd.2).failed = some true)) sds)).map
          (fun sd => env.copyOutput sd.1 sd.2)).foldl updateResultFromTask r),
       (sds.take (stopCount (fun sd =>
            decide ((env.copyOutput sd.1 sd.2).failed = some true)) sds)).map
          (fun sd => fileOpOf ra sd.1 sd.2)) := by
  intro sds
  induction sds with
  | nil => intro r hr; rfl
  | cons sd rest ih =>
      intro r hr
      show (let r' := updateResultFromTask r (env.copyOutput sd.1 sd.2);
        if r'.failed then (r', [fileOpOf ra sd.1 sd.2])
        else
          let next := filePhase env ra r' rest
          (next.1, fileOpOf ra sd.1 sd.2 :: next.2)) = _
      have hfailed : (updateResultFromTask r (env.copyOutput sd.1 sd.2)).failed =
          decide ((env.copyOutput sd.1 sd.2).failed = some true) := by
        rw [updateResultFromTask_failed, hr, Bool.false_or]
      by_cases hdf : ((env.copyOutput sd.1 sd.2).failed = some true)
      · have hdt : decide ((env.copyOutput sd.1 sd.2).failed = some true) = true := by simp [hdf]
        simp only [hfailed, hdt, if_true, stopCount]
        rfl
      · have hdf' : decide ((env.copyOutput sd.1 sd.2).failed = some true) = false := by
          simp [hdf]
        simp only [hfailed, hdf', Bool.false_eq_true, if_false, stopCount]
        rw [ih (updateResultFromTask r (env.copyOutput sd.1 sd.2)) (by rw [hfailed, hdf'])]
        simp only [List.take_succ_cons, List.map_cons, List.foldl_cons]

/-! ### Claim C8: diff recording in result aggregation -/

theorem updateResultFromTask_diff (r : RunResult) (t : TaskOutput) :
    (updateResultFromTask r t).diff =
      r.diff ++ (if doSaveDiff t then (t.diff.map diffEntries).getD [] else []) := by
  unfold updateResultFromTask
  by_cases hc : t.changed = some true <;> by_cases hf : t.failed = some true <;>
    cases hm : t.msg <;> cases hd : t.diff <;>
      simp [hc, hf, hd, doSaveDiff] <;> split <;> simp

theorem templateUpdateResultFromTask_diff (r : RunResult) (t : TaskOutput) :
    (templateUpdateResultFromTask r t).diff = r.diff ++ (t.diff.map diffEntries).getD [] := by
  unfold templateUpdateResultFromTask
  by_cases hc : t.changed = some true <;> by_cases hf : t.failed = some true <;>
    cases hm : t.msg <;> cases hd : t.diff <;> simp [hc, hf, hd]

theorem doSaveDiff_iff (t : TaskOutput) : doSaveDiff t = true ↔
    t.diff.isSome ∧ (t.changed = some true ∨
      ¬ ∃ d v, t.diff = some (DiffVal.dict d) ∧ d.before = some v ∧ d.after = some v) := by
  cases hd : t.diff with
  | none =>
      have hred : doSaveDiff t = false := by
        unfold doSaveDiff
        rw [hd]
      simp [hred, hd]
  | some dv =>
      cases dv with
      | dict d =>
          have hred : doSaveDiff t = (if t.changed = some true then true
              else if d.before.isSome ∧ d.after.isSome ∧ d.before = d.after then false
              else true) := by
            unfold doSaveDiff
            rw [hd]
          rw [hred]
          by_cases hc : t.changed = some true
          · simp [hc]
          · by_cases heq : d.before.isSome ∧ d.after.isSome ∧ d.before = d.after
            · rw [if_neg hc, if_pos heq]
              constructor
              · intro hfalse
                simp at hfalse
              · rintro ⟨hsome, hor⟩
                exfalso
                rcases hor with hch | hnex
                · exact hc hch
                · apply hnex
                  obtain ⟨v, hv⟩ := Option.isSome_iff_exists.mp heq.1
                  exact ⟨d, v, rfl, hv, by rw [← heq.2.2, hv]⟩
            · rw [if_neg hc, if_neg heq]
              constructor
              · intro _
                refine ⟨rfl, Or.inr ?_⟩
                rintro ⟨d', v, hdv, hb, ha⟩
                have hdd : d = d' := DiffVal.dict.inj (Option.some.inj hdv)
                subst hdd
                exact heq ⟨by rw [hb]; rfl, by rw [ha]; rfl, by rw [hb, ha]⟩
              · intro _
                rfl
      | list l =>
          have hred : doSaveDiff t = (if t.changed = some true then true else true) := by
            unfold doSaveDiff
            rw [hd]
          rw [hred]
          by_cases hc : t.changed = some true
          · simp [hc]
          · rw [if_neg hc]
            constructor
            · intro _
              refine ⟨rfl, Or.inr ?_⟩
              rintro ⟨d', v, hdv, _, _⟩
              simp at hdv
            · intro _
              rfl

/-- Claim C8 as stated is false: the template variant's
`update_result_from_task` appends a reported diff unconditionally, so a
sub-operation reporting no change with identical before/after still
contributes a diff entry. -/
theorem c8_counterexample :
    (templateUpdateResultFromTask initResult
        { changed := some false, failed := none, msg := none,
          diff := some (DiffVal.dict { before := some "x", after := some "x" }) }).diff ≠
      initResult.diff := by decide

/-- Claim C8 (amended): in the copy variant, a sub-operation's diff entries
are appended exactly when `_do_save_diff` holds, which is the case iff a
diff is reported and either the operation reports `changed=True` or the
diff is not a dict with present, equal `before`/`after` values; the
template variant appends every reported diff unconditionally, including
no-change diffs with identical before/after. -/
theorem c8_diff_recording_amended :
    (∀ (r : RunResult) (t : TaskOutput),
      (updateResultFromTask r t).diff =
        r.diff ++ (if doSaveDiff t then (t.diff.map diffEntries).getD [] else [])) ∧
    (∀ (t : TaskOutput), doSaveDiff t = true ↔
      t.diff.isSome ∧ (t.changed = some true ∨
        ¬ ∃ d v, t.diff = some (DiffVal.dict d) ∧ d.before = some v ∧ d.after = some v)) ∧
    (∀ (r : RunResult) (t : TaskOutput),
      (templateUpdateResultFromTask r t).diff = r.diff ++ (t.diff.map diffEntries).getD []) :=
  ⟨updateResultFromTask_diff, doSaveDiff_iff, templateUpdateResultFromTask_diff⟩

/-! ### Unfolding lemmas for `copyRun`'s validation gates -/

theorem copyRun_modes_failed (env : CopyEnv) (args : CopyArgs) (msg : String)
    (hos : env.this_os ∈ SUPPORTED_OS) (hextra : args.extra_args = [])
    (hdir : env.src_root_isdir args.src_root = true)
    (hmodes : checkModesList (copyModesToCheck args) = some msg) :
    copyRun env args = (.ok (resultFailed msg), []) := by
  unfold copyRun
  rw [if_neg (not_not_intro hos), hextra]
  show (if env.src_root_isdir args.src_root = false then _ else _) = _
  rw [if_neg (by rw [hdir]; simp), hmodes]

theorem copyRun_validated (env : CopyEnv) (args : CopyArgs)
    (hos : env.this_os ∈ SUPPORTED_OS) (hextra : args.extra_args = [])
    (hdir : env.src_root_isdir args.src_root = true)
    (hmodes : checkModesList (copyModesToCheck args) = none) :
    copyRun env args = copyRunPhases env args := by
  unfold copyRun
  rw [if_neg (not_not_intro hos), hextra]
  show (if env.src_root_isdir args.src_root = false then _ else _) = _
  rw [if_neg (by rw [hdir]; simp), hmodes]

/-! ### Claim C4: mode validation -/

theorem isOctalDigit_iff (c : Char) :
    isOctalDigit c = true ↔ c ∈ ['0', '1', '2', '3', '4', '5', '6', '7'] := by
  constructor
  · intro h
    unfold isOctalDigit at h
    rw [Bool.and_eq_true] at h
    have hle1 : '0' ≤ c := of_decide_eq_true h.1
    have hle2 : c ≤ '7' := of_decide_eq_true h.2
    rw [Char.le_def, UInt32.le_def, BitVec.le_def] at hle1 hle2
    have h48 : 48 ≤ c.toNat := hle1
    have h55 : c.toNat ≤ 55 := hle2
    have hcases : c.toNat = 48 ∨ c.toNat = 49 ∨ c.toNat = 50 ∨ c.toNat = 51 ∨
        c.toNat = 52 ∨ c.toNat = 53 ∨ c.toNat = 54 ∨ c.toNat = 55 := by omega
    have hc : ∀ (d : Char), c.toNat = d.toNat → c = d := fun d hd =>
      Char.ext (UInt32.ext (by simpa [Char.toNat] using hd))
    rcases hcases with h | h | h | h | h | h | h | h
    · rw [hc '0' (by rw [h]; rfl)]; simp
    · rw [hc '1' (by rw [h]; rfl)]; simp
    · rw [hc '2' (by rw [h]; rfl)]; simp
    · rw [hc '3' (by rw [h]; rfl)]; simp
    · rw [hc '4' (by rw [h]; rfl)]; simp
    · rw [hc '5' (by rw [h]; rfl)]; simp
    · rw [hc '6' (by rw [h]; rfl)]; simp
    · rw [hc '7' (by rw [h]; rfl)]; simp
  · intro h
    fin_cases h <;> decide

theorem modeCheck_none_iff (v : PyVal) :
    modeCheck v = none ↔ ∃ s, v = PyVal.str s ∧ s.length = 4 ∧
      ∀ c ∈ s.data, c ∈ ['0', '1', '2', '3', '4', '5', '6', '7'] := by
  cases v with
  | nonStr shown =>
      constructor
      · intro h
        simp [modeCheck] at h
      · rintro ⟨s, hs, _⟩
        exact PyVal.noConfusion hs
  | str s =>
      have hred : modeCheck (PyVal.str s) =
          (if modeRegexFullmatch s = true then none
           else some ("mode \"" ++ s ++ "\" does not match regex: \"[0-7]\x7b4\x7d\"")) := rfl
      rw [hred]
      by_cases hm : modeRegexFullmatch s = true
      · rw [if_pos hm]
        unfold modeRegexFullmatch at hm
        rw [Bool.and_eq_true] at hm
        have hlen : s.length = 4 := by
          have := hm.1
          rwa [beq_iff_eq] at this
        have hall : ∀ c ∈ s.data, c ∈ ['0', '1', '2', '3', '4', '5', '6', '7'] := by
          intro c hc
          exact (isOctalDigit_iff c).mp (List.all_eq_true.mp hm.2 c hc)
        constructor
        · intro _
          exact ⟨s, rfl, hlen, hall⟩
        · intro _
          rfl
      · rw [if_neg hm]
        constructor
        · intro h
          exact absurd h (by simp)
        · rintro ⟨s', hs', hlen, hall⟩
          have hss : s = s' := PyVal.str.inj hs'
          subst hss
          exfalso
          apply hm
          unfold modeRegexFullmatch
          rw [Bool.and_eq_true]
          constructor
          · rw [beq_iff_eq]
            exact hlen
          · rw [List.all_eq_true]
            intro c hc
            exact (isOctalDigit_iff c).mpr (hall c hc)

/-- Claim C4: a mode value passes the validation gate iff it is a string of
exactly four characters, each one of `'0'`–`'7'`; and whenever any checked
mode value (the default `mode`, `parent_dirs_mode`, or a `mode_overrides`
key) fails the check, `run` returns the failure message with `failed=true`
and issues no remote operation. -/
theorem c4_mode_validation :
    (∀ v : PyVal, modeCheck v = none ↔ ∃ s, v = PyVal.str s ∧ s.length = 4 ∧
        ∀ c ∈ s.data, c ∈ ['0', '1', '2', '3', '4', '5', '6', '7']) ∧
    (∀ (env : CopyEnv) (args : CopyArgs) (msg : String),
        env.this_os ∈ SUPPORTED_OS → args.extra_args = [] →
        env.src_root_isdir args.src_root = true →
        checkModesList (copyModesToCheck args) = some msg →
        copyRun env args = (CopyOutcome.ok (resultFailed msg), []) ∧
          (resultFailed msg).failed = true) :=
  ⟨modeCheck_none_iff, fun env args msg hos hextra hdir hmodes =>
    ⟨copyRun_modes_failed env args msg hos hextra hdir hmodes, rfl⟩⟩

/-- Witness for C4: `"0755"` passes; `"755"`, `"075a"`, `"07555"` and a
non-string are rejected, and a run with mode `"755"` fails with no
operations issued. -/
theorem c4_mode_validation_witness :
    (modeCheck (PyVal.str "0755") = none ∧
      ¬ modeCheck (PyVal.str "755") = none ∧
      ¬ modeCheck (PyVal.str "075a") = none ∧
      ¬ modeCheck (PyVal.str "07555") = none ∧
      ¬ modeCheck (PyVal.nonStr "493") = none) ∧
    copyRun
      { this_os := "linux", src_root_isdir := fun _ => true, walk := [],
        mkdirOutput := fun _ => ⟨none, none, none, none⟩,
        copyOutput := fun _ _ => ⟨none, none, none, none⟩ }
      { owner := "root", group := "root", mode := PyVal.str "755",
        parent_dirs_mode := PyVal.str "0755", src_root := "/local",
        mode_overrides := none, owner_overrides := none, group_overrides := none,
        extra_args := [] } =
      (CopyOutcome.ok (resultFailed
        "mode \"755\" does not match regex: \"[0-7]\x7b4\x7d\""), []) := by
  constructor
  · exact ⟨by decide, by decide, by decide, by decide, by decide⟩
  · exact (c4_mode_validation.2 _ _ _ (by decide) rfl rfl (by decide)).1

/-! ### Claim C5: override-table normalization -/

theorem foldl_const_last {α β : Type} (g : α → β) :
    ∀ (d : List α) (k : α), d.getLast? = some k →
    ∀ (init : β), d.foldl (fun _ kv => g kv) init = g k := by
  intro d
  induction d with
  | nil =>
      intro k h init
      simp at h
  | cons a rest ih =>
      intro k h init
      rw [List.foldl_cons]
      cases hr : rest with
      | nil =>
          subst hr
          have : k = a := by
            simp [List.getLast?] at h
            exact h.symm
          subst this
          rfl
      | cons b t =>
          have h' : (b :: t).getLast? = some k := by
            rw [hr] at h
            rwa [List.getLast?_cons_cons] at h
          rw [hr] at ih
          exact ih k h' (g a)

theorem normalizeOverrides_last {κ : Type} (d : List (κ × List String)) (k : κ)
    (ps : List String) (h : d.getLast? = some (k, ps)) :
    normalizeOverrides d = [(k, ps.map pyRstripSlash)] := by
  unfold normalizeOverrides
  exact foldl_const_last (fun kv => [(kv.1, kv.2.map pyRstripSlash)]) d (k, ps) h d

theorem pyRstripSlash_spec (s : String) :
    ∃ n, s.data = (pyRstripSlash s).data ++ List.replicate n '/' ∧
      (pyRstripSlash s).data.getLast? ≠ some '/' := by
  set tk := s.data.reverse.takeWhile (fun c => c = '/') with htk
  set dw := s.data.reverse.dropWhile (fun c => c = '/') with hdw
  have hsplit : tk ++ dw = s.data.reverse := List.takeWhile_append_dropWhile _ _
  have hdata : (pyRstripSlash s).data = dw.reverse := rfl
  have htr : tk = List.replicate tk.length '/' := by
    apply List.eq_replicate_of_mem
    intro b hb
    rw [htk] at hb
    have := List.mem_takeWhile_imp hb
    simpa using this
  refine ⟨tk.length, ?_, ?_⟩
  · rw [hdata]
    calc s.data = (s.data.reverse).reverse := (List.reverse_reverse _).symm
      _ = (tk ++ dw).reverse := by rw [hsplit]
      _ = dw.reverse ++ tk.reverse := by rw [List.reverse_append]
      _ = dw.reverse ++ List.replicate tk.length '/' := by
          conv_lhs => rw [htr]
          rw [List.reverse_replicate]
  · rw [hdata, List.getLast?_eq_head?_reverse, List.reverse_reverse]
    cases hdwc : dw with
    | nil => simp
    | cons z zs =>
        have hz := dropWhile_head_false (fun c => decide (c = '/')) s.data.reverse z zs
          (by rw [← hdw]; exact hdwc)
        simp only [List.head?_cons, ne_eq, Option.some.injEq]
        intro hEq
        rw [hEq] at hz
        simp at hz

theorem getMode_singleton (k : PyVal) (qs : List String) (mode parent_dirs_mode : PyVal)
    (path fod : String) :
    getMode [(k, qs)] mode parent_dirs_mode path fod =
      if path ∈ qs then k else if fod = "file" then mode else parent_dirs_mode := by
  unfold getMode
  by_cases h : path ∈ qs
  · rw [if_pos h]
    rw [List.find?_cons]
    simp [h]
  · rw [if_neg h]
    rw [List.find?_cons]
    simp [h]

theorem getOwner_singleton (k : String) (qs : List String) (owner path : String) :
    getOwner [(k, qs)] owner path = if path ∈ qs then k else owner := by
  unfold getOwner
  by_cases h : path ∈ qs
  · rw [if_pos h]
    rw [List.find?_cons]
    simp [h]
  · rw [if_neg h]
    rw [List.find?_cons]
    simp [h]

/-- Claim C5: the in-place normalization loop leaves every nonempty
override table equal to the singleton of its last-iterated entry, with
trailing slashes stripped from each of that entry's paths (`rstrip("/")`
removes exactly the maximal run of trailing `'/'`), and the later policy
getters therefore consult only that surviving entry, comparing paths
without trailing slashes. -/
theorem c5_override_normalization :
    (∀ (κ : Type) (d : List (κ × List String)) (k : κ) (ps : List String),
        d.getLast? = some (k, ps) →
        normalizeOverrides d = [(k, ps.map pyRstripSlash)]) ∧
    (∀ s : String, ∃ n, s.data = (pyRstripSlash s).data ++ List.replicate n '/' ∧
        (pyRstripSlash s).data.getLast? ≠ some '/') ∧
    (∀ (d : List (PyVal × List String)) (k : PyVal) (ps : List String),
        d.getLast? = some (k, ps) →
        ∀ (mode parent_dirs_mode : PyVal) (path fod : String),
          getMode (normalizeOverrides d) mode parent_dirs_mode path fod =
            if path ∈ ps.map pyRstripSlash then k
            else if fod = "file" then mode else parent_dirs_mode) ∧
    (∀ (d : List (String × List String)) (k : String) (ps : List String),
        d.getLast? = some (k, ps) →
        ∀ (owner path : String),
          getOwner (normalizeOverrides d) owner path =
            if path ∈ ps.map pyRstripSlash then k else owner) := by
  refine ⟨fun κ d k ps h => normalizeOverrides_last d k ps h, pyRstripSlash_spec, ?_, ?_⟩
  · intro d k ps h mode parent_dirs_mode path fod
    rw [normalizeOverrides_last d k ps h]
    exact getMode_singleton k (ps.map pyRstripSlash) mode parent_dirs_mode path fod
  · intro d k ps h owner path
    rw [normalizeOverrides_last d k ps h]
    exact getOwner_singleton k (ps.map pyRstripSlash) owner path

/-- Witness for C5: a two-entry mode-override dict collapses to the
singleton of its last entry with trailing slashes stripped, and the mode
getter then honours only that entry. -/
theorem c5_override_normalization_witness :
    ([(PyVal.str "0600", ["/a/"]), (PyVal.str "0700", ["/c//", "/d"])].getLast? =
        some (PyVal.str "0700", ["/c//", "/d"])) ∧
    normalizeOverrides [(PyVal.str "0600", ["/a/"]), (PyVal.str "0700", ["/c//", "/d"])] =
      [(PyVal.str "0700", ["/c", "/d"])] ∧
    getMode (normalizeOverrides
        [(PyVal.str "0600", ["/a/"]), (PyVal.str "0700", ["/c//", "/d"])])
      (PyVal.str "0644") (PyVal.str "0755") "/a" "file" = PyVal.str "0644" := by
  refine ⟨rfl, ?_, ?_⟩
  · exact (c5_override_normalization.1 PyVal
      [(PyVal.str "0600", ["/a/"]), (PyVal.str "0700", ["/c//", "/d"])]
      (PyVal.str "0700") ["/c//", "/d"] rfl).trans (by decide)
  · exact (c5_override_normalization.2.2.1
      [(PyVal.str "0600", ["/a/"]), (PyVal.str "0700", ["/c//", "/d"])]
      (PyVal.str "0700") ["/c//", "/d"] rfl (PyVal.str "0644") (PyVal.str "0755")
      "/a" "file").trans (by decide)

/-! ### Claim C10: destination paths are absolute, the assert never fires -/

theorem copy_dest_all_abs (walk : List (String × String)) :
    ((destPairs walk).map Prod.snd).all pyIsAbs = true := by
  rw [List.all_eq_true]
  intro x hx
  simp only [destPairs, List.map_map, List.mem_map] at hx
  obtain ⟨pr, hpr, hEq⟩ := hx
  rw [← hEq]
  exact pyIsAbs_pyJoin_root pr.2

/-- The body after the assert and the `remove("/")`, given the pipeline's
outcome. -/
theorem copyRunPhases_eq (env : CopyEnv) (args : CopyArgs) (dirs : List String)
    (hpipe : destinationDirsPipeline ((destPairs env.walk).map Prod.snd) = some dirs) :
    copyRunPhases env args =
      if overridesNotFound (copyResolvedArgs args)
          (((destPairs env.walk).map Prod.snd) ++ dirs) ≠ [] then
        (.ok (resultFailed (invalidOverridesMsg
          (overridesNotFound (copyResolvedArgs args)
            (((destPairs env.walk).map Prod.snd) ++ dirs))
          (((destPairs env.walk).map Prod.snd) ++ dirs))), [])
      else
        if (dirPhase env (copyResolvedArgs args) initResult dirs).1.failed then
          (.ok (dirPhase env (copyResolvedArgs args) initResult dirs).1,
            (dirPhase env (copyResolvedArgs args) initResult dirs).2)
        else
          (.ok (filePhase env (copyResolvedArgs args)
              (dirPhase env (copyResolvedArgs args) initResult dirs).1 (destPairs env.walk)).1,
            (dirPhase env (copyResolvedArgs args) initResult dirs).2 ++
              (filePhase env (copyResolvedArgs args)
                (dirPhase env (copyResolvedArgs args) initResult dirs).1
                (destPairs env.walk)).2) := by
  unfold copyRunPhases
  rw [if_neg (by rw [copy_dest_all_abs env.walk]; simp), hpipe]

/-- Claim C10: every destination path built by `run` is
`os.path.join("/", relative)` and is therefore absolute, so the
`assert all(os.path.isabs(path) ...)` precondition of
`_get_all_parent_dirs` holds on the list `run` passes to it and the run
never raises `AssertionError`. -/
theorem c10_destinations_absolute :
    (∀ rel : String, pyIsAbs (pyJoin "/" rel) = true) ∧
    (∀ walk : List (String × String), ((destPairs walk).map Prod.snd).all pyIsAbs = true) ∧
    (∀ (env : CopyEnv) (args : CopyArgs),
      (copyRun env args).1 ≠ CopyOutcome.assertionError) := by
  refine ⟨pyIsAbs_pyJoin_root, copy_dest_all_abs, ?_⟩
  intro env args h
  unfold copyRun at h
  split at h
  · simp at h
  · split at h
    · simp at h
    · split at h
      · simp at h
      · split at h
        · simp at h
        · simp only [copyRunPhases] at h
          split at h
          · rename_i hcond
            rw [copy_dest_all_abs env.walk] at hcond
            simp at hcond
          · split at h
            · simp at h
            · split at h
              · simp at h
              · split at h
                · simp at h
                · simp at h

/-! ### Claim C6: behaviour on an empty source tree -/

/-- Claim C6 is contradicted by the code: on a valid, empty source tree
(no regular files), `destination_files` is empty, `_get_all_parent_dirs`
returns `[]`, and `destination_dirs.remove("/")` raises an uncaught
`ValueError` instead of proceeding to a `failed=false, changed=false`
result with no operations. -/
theorem c6_empty_tree_value_error :
    copyRun
      { this_os := "linux", src_root_isdir := fun _ => true, walk := [],
        mkdirOutput := fun _ => ⟨none, none, none, none⟩,
        copyOutput := fun _ _ => ⟨none, none, none, none⟩ }
      { owner := "root", group := "root", mode := PyVal.str "0644",
        parent_dirs_mode := PyVal.str "0755", src_root := "/local",
        mode_overrides := none, owner_overrides := none, group_overrides := none,
        extra_args := [] } = (CopyOutcome.valueError, []) := by
  rfl

/-! ### Claim C7: template-variant validation -/

/-- Claim C7 as stated is false: a template run whose arguments lack
`owner`, `group` and `mode` and carry an unrecognized field passes
validation (here with an empty tree, returning `failed=false`). -/
theorem c7_counterexample :
    (templateRun
      { templates_root_isdir := fun _ => true, walk := [],
        remoteStat := fun _ => ⟨true, true⟩,
        createDirOutput := fun _ => ⟨none, none, none, none⟩,
        templateOutput := fun _ _ => ⟨none, none, none, none⟩ }
      { templates_root := some "/templates", mode := none, owner := none, group := none,
        new_dir_mode := none, extra_args := ["unrecognized_field"] }).1.failed = false := by
  rfl

/-- Claim C7 (amended): the template variant's validation requires only
`templates_root` (absent, or not naming a directory, fails before any
operation); `owner`, `group` and `mode` are optional and unrecognized
fields are not rejected — with a valid `templates_root` the run proceeds
regardless of them (shown on an empty tree: `failed=false`, no
operations). -/
theorem c7_template_validation_amended :
    (∀ (env : TemplateEnv) (args : TemplateArgs), args.templates_root = none →
        templateRun env args = (resultFailed "`templates_root` argument is required!", [])) ∧
    (∀ (env : TemplateEnv) (args : TemplateArgs) (root : String),
        args.templates_root = some root → env.templates_root_isdir root = false →
        templateRun env args = (resultFailed ("\"" ++ root ++ "\" is not a directory!"), [])) ∧
    (∀ (env : TemplateEnv) (args : TemplateArgs) (root : String),
        args.templates_root = some root → env.templates_root_isdir root = true →
        env.walk = [] → templateRun env args = (initResult, [])) := by
  refine ⟨?_, ?_, ?_⟩
  · intro env args h
    unfold templateRun
    rw [h]
  · intro env args root h1 h2
    unfold templateRun
    rw [h1]
    show (if env.templates_root_isdir root = false then _ else _) = _
    rw [if_pos h2]
  · intro env args root h1 h2 hw
    unfold templateRun
    rw [h1]
    show (if env.templates_root_isdir root = false then _ else _) = _
    rw [if_neg (by rw [h2]; simp)]
    simp [hw, templateFiles, dedupFirst, templateDirPhase, templateFilePhase, initResult]

/-- Witness for C7 (amended): concrete runs exercising all three parts. -/
theorem c7_template_validation_witness :
    templateRun
      { templates_root_isdir := fun _ => true, walk := [],
        remoteStat := fun _ => ⟨true, true⟩,
        createDirOutput := fun _ => ⟨none, none, none, none⟩,
        templateOutput := fun _ _ => ⟨none, none, none, none⟩ }
      { templates_root := some "/t", mode := none, owner := none, group := none,
        new_dir_mode := none, extra_args := ["whatever"] } = (initResult, []) ∧
    templateRun
      { templates_root_isdir := fun _ => true, walk := [],
        remoteStat := fun _ => ⟨true, true⟩,
        createDirOutput := fun _ => ⟨none, none, none, none⟩,
        templateOutput := fun _ _ => ⟨none, none, none, none⟩ }
      { templates_root := none, mode := none, owner := none, group := none,
        new_dir_mode := none, extra_args := [] } =
      (resultFailed "`templates_root` argument is required!", []) := by
  constructor
  · exact c7_template_validation_amended.2.2 _ _ "/t" rfl rfl rfl
  · exact c7_template_validation_amended.1 _ _ rfl

/-! ### Claim C9: suffix stripping and conditional directory creation -/

theorem stripEnd_of_endsWith (s : String) (h : pyEndsWith s ".j2" = true) :
    stripEnd s ".j2" ++ ".j2" = s := by
  have hsuf : (".j2" : String).data <:+ s.data := by
    unfold pyEndsWith at h
    exact List.isSuffixOf_iff_suffix.mp h
  obtain ⟨l₁, hl₁⟩ := hsuf
  have hlen : s.data.length = l₁.length + (".j2" : String).data.length := by
    rw [← hl₁]
    simp
  have hcond : (".j2" : String).data.length > 0 ∧ pyEndsWith s ".j2" = true := ⟨by decide, h⟩
  have hstrip : stripEnd s ".j2" = ⟨l₁⟩ := by
    unfold stripEnd
    rw [if_pos hcond]
    have htake : s.data.take (s.data.length - (".j2" : String).data.length) = l₁ := by
      rw [← hl₁]
      have h2 : (l₁ ++ (".j2" : String).data).length - (".j2" : String).data.length =
          l₁.length := by
        simp
      rw [h2]
      exact List.take_left l₁ _
    rw [htake]
  rw [hstrip]
  apply String.ext
  rw [String.data_append, ← hl₁]

theorem stripEnd_of_not_endsWith (s : String) (h : pyEndsWith s ".j2" = false) :
    stripEnd s ".j2" = s := by
  unfold stripEnd
  rw [if_neg (by rw [h]; simp)]

theorem templateDirPhase_cons (env : TemplateEnv) (args : TemplateArgs) (r : RunResult)
    (d : String) (rest : List String) :
    templateDirPhase env args r (d :: rest) =
      if doesRemoteDirectoryExist env d then templateDirPhase env args r rest
      else
        let r' := templateUpdateResultFromTask r (env.createDirOutput d)
        if r'.failed then (r', [templateCreateDirOp args d])
        else
          let next := templateDirPhase env args r' rest
          (next.1, templateCreateDirOp args d :: next.2) := rfl

theorem templateDirPhase_ops (env : TemplateEnv) (args : TemplateArgs) :
    ∀ (dirs : List String) (r : RunResult),
      ∀ op ∈ (templateDirPhase env args r dirs).2,
        ∃ d, op = templateCreateDirOp args d ∧ doesRemoteDirectoryExist env d = false ∧
          d ∈ dirs := by
  intro dirs
  induction dirs with
  | nil =>
      intro r op hop
      simp [templateDirPhase] at hop
  | cons d rest ih =>
      intro r op hop
      by_cases hex : doesRemoteDirectoryExist env d = true
      · rw [templateDirPhase_cons, if_pos hex] at hop
        obtain ⟨d', h1, h2, h3⟩ := ih r op hop
        exact ⟨d', h1, h2, by simp [h3]⟩
      · have hex' : doesRemoteDirectoryExist env d = false := by
          cases hc : doesRemoteDirectoryExist env d
          · rfl
          · exact absurd hc hex
        rw [templateDirPhase_cons, if_neg hex] at hop
        by_cases hf : (templateUpdateResultFromTask r (env.createDirOutput d)).failed = true
        · simp only [hf, if_true] at hop
          have : op = templateCreateDirOp args d := by
            simpa using hop
          exact ⟨d, this, hex', by simp⟩
        · have hf' : (templateUpdateResultFromTask r (env.createDirOutput d)).failed = false := by
            cases hc : (templateUpdateResultFromTask r (env.createDirOutput d)).failed
            · rfl
            · exact absurd hc hf
          simp only [hf', Bool.false_eq_true, if_false] at hop
          rcases List.mem_cons.mp hop with hop1 | hop2
          · exact ⟨d, hop1, hex', by simp⟩
          · obtain ⟨d', h1, h2, h3⟩ :=
              ih (templateUpdateResultFromTask r (env.createDirOutput d)) op hop2
            exact ⟨d', h1, h2, by simp [h3]⟩

theorem templateDirPhase_all_exist (env : TemplateEnv) (args : TemplateArgs) :
    ∀ (dirs : List String) (r : RunResult),
      (∀ d ∈ dirs, doesRemoteDirectoryExist env d = true) →
      templateDirPhase env args r dirs = (r, []) := by
  intro dirs
  induction dirs with
  | nil => intro r _; rfl
  | cons d rest ih =>
      intro r h
      have hd : doesRemoteDirectoryExist env d = true := h d (by simp)
      rw [templateDirPhase_cons, if_pos hd]
      exact ih r (fun d' hd' => h d' (by simp [hd']))

/-- Claim C9: destination paths of the template variant strip a trailing
`".j2"` (and are unchanged otherwise), each walked file appears in
`template_files` with exactly that mapping, and a destination directory
operation is issued only for directories whose remote stat does not report
an existing directory — a directory reported present is never recreated. -/
theorem c9_template_mapping_and_mkdir_guard :
    (∀ s : String, pyEndsWith s ".j2" = true → stripEnd s ".j2" ++ ".j2" = s) ∧
    (∀ s : String, pyEndsWith s ".j2" = false → stripEnd s ".j2" = s) ∧
    (∀ (walk : List (String × String)) (full rel : String), (full, rel) ∈ walk →
        (full, stripEnd (pyJoin "/" rel) ".j2") ∈ templateFiles walk) ∧
    (∀ (env : TemplateEnv) (args : TemplateArgs) (dirs : List String) (r : RunResult),
        ∀ op ∈ (templateDirPhase env args r dirs).2,
          ∃ d, op = templateCreateDirOp args d ∧ doesRemoteDirectoryExist env d = false ∧
            d ∈ dirs) ∧
    (∀ (env : TemplateEnv) (args : TemplateArgs) (dirs : List String) (r : RunResult),
        (∀ d ∈ dirs, doesRemoteDirectoryExist env d = true) →
        templateDirPhase env args r dirs = (r, [])) := by
  refine ⟨stripEnd_of_endsWith, stripEnd_of_not_endsWith, ?_, ?_, ?_⟩
  · intro walk full rel h
    unfold templateFiles
    exact List.mem_map.mpr ⟨(full, rel), h, rfl⟩
  · intro env args dirs r
    exact templateDirPhase_ops env args dirs r
  · intro env args dirs r
    exact templateDirPhase_all_exist env args dirs r

/-- Witness for C9: `"config.yml.j2"` under the templates root renders to
`"/config.yml"`, and a directory reported present on the remote is not
recreated. -/
theorem c9_template_mapping_witness :
    (pyEndsWith "/config.yml.j2" ".j2" = true ∧
      stripEnd "/config.yml.j2" ".j2" ++ ".j2" = "/config.yml.j2" ∧
      stripEnd "/config.yml.j2" ".j2" = "/config.yml") ∧
    templateDirPhase
      { templates_root_isdir := fun _ => true, walk := [],
        remoteStat := fun _ => ⟨true, true⟩,
        createDirOutput := fun _ => ⟨none, none, none, none⟩,
        templateOutput := fun _ _ => ⟨none, none, none, none⟩ }
      { templates_root := some "/t", mode := none, owner := none, group := none,
        new_dir_mode := none, extra_args := [] }
      initResult ["/etc"] = (initResult, []) := by
  constructor
  · exact ⟨by decide, c9_template_mapping_and_mkdir_guard.1 "/config.yml.j2" (by decide),
      by decide⟩
  · exact c9_template_mapping_and_mkdir_guard.2.2.2.2 _ _ ["/etc"] initResult
      (by intro d hd; simp at hd; subst hd; rfl)

/-! ### Claim C3: the computed ancestor-directory list -/

/-- Claim C3: for nonempty, normalised absolute destination files (the
form `run` constructs), the sorted-and-root-stripped directory list of
lines 196–199 contains exactly the strict ancestors of the files other
than `"/"`, each exactly once, never `"/"` itself, in length-ascending
order, and hence never places a directory before one of its ancestors. -/
theorem c3_ancestor_directories (files : List String) (hne : files ≠ [])
    (hclean : ∀ f ∈ files, CleanAbs f) :
    ∃ dirs, destinationDirsPipeline files = some dirs ∧
      (∀ d, d ∈ dirs ↔ d ≠ "/" ∧ ∃ f ∈ files, d ∈ strictAncestors f) ∧
      (∀ d, d ≠ "/" → (∃ f ∈ files, d ∈ strictAncestors f) → List.count d dirs = 1) ∧
      "/" ∉ dirs ∧
      dirs.Pairwise (fun a b => a.length ≤ b.length) ∧
      dirs.Pairwise (fun a b => b ∉ strictAncestors a) := by
  obtain ⟨dirs, h1, h2, h3, h4, h5, h6, h7⟩ := destinationDirsPipeline_props files hne hclean
  refine ⟨dirs, h1, h2, ?_, h4, h5, h7⟩
  intro d hd hex
  exact List.count_eq_one_of_mem h3 ((h2 d).mpr ⟨hd, hex⟩)

/-- Witness for C3 on the scenario tree `{"a/b/file.txt"}`. -/
theorem c3_ancestor_directories_witness :
    (["/a/b/file.txt"] ≠ ([] : List String)) ∧
    (∀ f ∈ ["/a/b/file.txt"], CleanAbs f) ∧
    (∃ dirs, destinationDirsPipeline ["/a/b/file.txt"] = some dirs ∧
      (∀ d, d ∈ dirs ↔ d ≠ "/" ∧ ∃ f ∈ ["/a/b/file.txt"], d ∈ strictAncestors f) ∧
      (∀ d, d ≠ "/" → (∃ f ∈ ["/a/b/file.txt"], d ∈ strictAncestors f) →
        List.count d dirs = 1) ∧
      "/" ∉ dirs ∧
      dirs.Pairwise (fun a b => a.length ≤ b.length) ∧
      dirs.Pairwise (fun a b => b ∉ strictAncestors a)) :=
  ⟨by decide, by decide, c3_ancestor_directories ["/a/b/file.txt"] (by decide) (by decide)⟩

/-! ### Claim C1: override-path validation fails before any operation -/

/-- Claim C1: when an override path survives validation up to the
override-path check but is neither a computed destination file nor a
computed ancestor directory, `run` returns `failed=true` with the
descriptive message and issues no remote operation at all. -/
theorem c1_override_validation (env : CopyEnv) (args : CopyArgs) (dirs : List String)
    (hos : env.this_os ∈ SUPPORTED_OS) (hextra : args.extra_args = [])
    (hdir : env.src_root_isdir args.src_root = true)
    (hmodes : checkModesList (copyModesToCheck args) = none)
    (hpipe : destinationDirsPipeline ((destPairs env.walk).map Prod.snd) = some dirs)
    (hnf : overridesNotFound (copyResolvedArgs args)
      (((destPairs env.walk).map Prod.snd) ++ dirs) ≠ []) :
    copyRun env args =
      (CopyOutcome.ok (resultFailed (invalidOverridesMsg
        (overridesNotFound (copyResolvedArgs args)
          (((destPairs env.walk).map Prod.snd) ++ dirs))
        (((destPairs env.walk).map Prod.snd) ++ dirs))), []) ∧
    (resultFailed (invalidOverridesMsg
        (overridesNotFound (copyResolvedArgs args)
          (((destPairs env.walk).map Prod.snd) ++ dirs))
        (((destPairs env.walk).map Prod.snd) ++ dirs))).failed = true ∧
    ∃ rest, invalidOverridesMsg
        (overridesNotFound (copyResolvedArgs args)
          (((destPairs env.walk).map Prod.snd) ++ dirs))
        (((destPairs env.walk).map Prod.snd) ++ dirs) =
      "overrides specified for invalid paths: " ++ rest := by
  refine ⟨?_, rfl, ?_⟩
  · rw [copyRun_validated env args hos hextra hdir hmodes,
      copyRunPhases_eq env args dirs hpipe, if_pos hnf]
  · refine ⟨String.intercalate ", " (overridesNotFound (copyResolvedArgs args)
      (((destPairs env.walk).map Prod.snd) ++ dirs)) ++ ". valid paths: " ++
      String.intercalate ", " (((destPairs env.walk).map Prod.snd) ++ dirs), ?_⟩
    unfold invalidOverridesMsg
    rw [String.append_assoc, String.append_assoc, String.append_assoc]

/-- Witness for C1: `mode_overrides={"0600": ["/not/a/real/path"]}` against
a tree with the single file `/a/b.txt` fails validation with no
operations. -/
theorem c1_override_validation_witness :
    copyRun
      { this_os := "linux", src_root_isdir := fun _ => true,
        walk := [("/local/a/b.txt", "a/b.txt")],
        mkdirOutput := fun _ => ⟨none, none, none, none⟩,
        copyOutput := fun _ _ => ⟨none, none, none, none⟩ }
      { owner := "root", group := "root", mode := PyVal.str "0644",
        parent_dirs_mode := PyVal.str "0755", src_root := "/local",
        mode_overrides := some [(PyVal.str "0600", ["/not/a/real/path"])],
        owner_overrides := none, group_overrides := none, extra_args := [] } =
      (CopyOutcome.ok (resultFailed
        (invalidOverridesMsg ["/not/a/real/path"] ["/a/b.txt", "/a"])), []) :=
  ((c1_override_validation
    { this_os := "linux", src_root_isdir := fun _ => true,
      walk := [("/local/a/b.txt", "a/b.txt")],
      mkdirOutput := fun _ => ⟨none, none, none, none⟩,
      copyOutput := fun _ _ => ⟨none, none, none, none⟩ }
    { owner := "root", group := "root", mode := PyVal.str "0644",
      parent_dirs_mode := PyVal.str "0755", src_root := "/local",
      mode_overrides := some [(PyVal.str "0600", ["/not/a/real/path"])],
      owner_overrides := none, group_overrides := none, extra_args := [] }
    ["/a"] (by decide) rfl rfl (by decide) (by decide) (by decide)).1).trans (by decide)

/-! ### Claim C2: driver ordering and abort on first failure -/

theorem cleanAbs_pyJoin (rel : String) (h : CleanRel rel) : CleanAbs (pyJoin "/" rel) := by
  have hnabs : pyIsAbs rel = false := by
    unfold pyIsAbs
    simp only [decide_eq_false_iff_not]
    exact h.2.1
  unfold pyJoin
  rw [if_neg (by rw [hnabs]; simp),
    if_pos (show ("/" : String) = "" ∨ ("/" : String).data.getLast? = some '/'
      from Or.inr rfl)]
  constructor
  · rw [String.data_append]
    rfl
  · rw [String.data_append]
    exact h

theorem any_map' {α β : Type} (f : α → β) (p : β → Bool) (l : List α) :
    (l.map f).any p = l.any (fun a => p (f a)) := by
  induction l with
  | nil => rfl
  | cons a t ih => simp [ih]

theorem any_eq_false_of_all {α : Type} (p : α → Bool) (l : List α)
    (h : ∀ x ∈ l, p x = false) : l.any p = false := by
  induction l with
  | nil => rfl
  | cons a t ih =>
      simp only [List.any_cons, Bool.or_eq_false_iff]
      exact ⟨h a (by simp), ih (fun x hx => h x (by simp [hx]))⟩

theorem filterMap_mkdirPath_dirOps (ra : ResolvedArgs) (l : List String) :
    (l.map (dirOpOf ra)).filterMap mkdirPath = l := by
  rw [List.filterMap_map]
  induction l with
  | nil => rfl
  | cons a t ih =>
      rw [List.filterMap_cons, show (mkdirPath ∘ dirOpOf ra) a = some a from rfl]
      show a :: List.filterMap (mkdirPath ∘ dirOpOf ra) t = a :: t
      rw [ih]

theorem filterMap_mkdirPath_fileOps (ra : ResolvedArgs) (l : List (String × String)) :
    (l.map (fun sd => fileOpOf ra sd.1 sd.2)).filterMap mkdirPath = [] := by
  rw [List.filterMap_map]
  induction l with
  | nil => rfl
  | cons a t ih =>
      rw [List.filterMap_cons,
        show (mkdirPath ∘ fun sd => fileOpOf ra sd.1 sd.2) a = none from rfl]
      exact ih

/-- Claim C2: on a validated input (supported OS, supported arguments,
existing source root, valid modes, valid override paths, clean walked
relative paths), `run` returns a result and a trace of remote operations in
which every directory operation precedes every file operation, the issued
mkdir paths form an initial segment of the computed (parent-before-child)
directory list and never place a directory after a descendant, every
operation except possibly the last succeeded (as soon as one fails nothing
further is issued), and the returned result is exactly the accumulation of
the issued operations' outputs, with `failed` set iff some issued operation
reported failure. -/
theorem c2_driver_ordering (env : CopyEnv) (args : CopyArgs) (dirs : List String)
    (hos : env.this_os ∈ SUPPORTED_OS) (hextra : args.extra_args = [])
    (hdir : env.src_root_isdir args.src_root = true)
    (hmodes : checkModesList (copyModesToCheck args) = none)
    (hpipe : destinationDirsPipeline ((destPairs env.walk).map Prod.snd) = some dirs)
    (hclean : ∀ pr ∈ env.walk, CleanRel pr.2)
    (hnf : overridesNotFound (copyResolvedArgs args)
      (((destPairs env.walk).map Prod.snd) ++ dirs) = []) :
    ∃ (r : RunResult) (trace : List RemoteOp),
      copyRun env args = (CopyOutcome.ok r, trace) ∧
      (∃ dops fops, trace = dops ++ fops ∧
        (∀ op ∈ dops, ∃ d, op = dirOpOf (copyResolvedArgs args) d) ∧
        (∀ op ∈ fops, ∃ sd : String × String,
          op = fileOpOf (copyResolvedArgs args) sd.1 sd.2)) ∧
      (∃ k, trace.filterMap mkdirPath = dirs.take k) ∧
      (trace.filterMap mkdirPath).Pairwise (fun a b => b ∉ strictAncestors a) ∧
      (∀ op ∈ trace.dropLast, opFailed env op = false) ∧
      r = ((trace.map (opOutput env)).foldl updateResultFromTask initResult) ∧
      r.failed = trace.any (opFailed env) := by
  -- the walked files are clean absolute paths and nonempty
  have hfne : (destPairs env.walk).map Prod.snd ≠ [] := by
    intro h0
    rw [h0] at hpipe
    rw [show destinationDirsPipeline [] = none from rfl] at hpipe
    exact Option.noConfusion hpipe
  have hcleanfiles : ∀ f ∈ (destPairs env.walk).map Prod.snd, CleanAbs f := by
    intro f hf
    simp only [destPairs, List.map_map, List.mem_map] at hf
    obtain ⟨pr, hpr, hEq⟩ := hf
    rw [← hEq]
    exact cleanAbs_pyJoin pr.2 (hclean pr hpr)
  obtain ⟨dirs', hp', hmem', hnodup', hroot', hlensorted', hcleand', hanc'⟩ :=
    destinationDirsPipeline_props ((destPairs env.walk).map Prod.snd) hfne hcleanfiles
  have hdirs : dirs' = dirs := by
    rw [hp'] at hpipe
    exact Option.some.inj hpipe
  rw [hdirs] at hmem' hnodup' hroot' hlensorted' hcleand' hanc'
  -- reduce the run to the two phases
  rw [copyRun_validated env args hos hextra hdir hmodes, copyRunPhases_eq env args dirs hpipe,
    if_neg (by rw [hnf]; simp)]
  have hstep1 := dirPhase_eq env (copyResolvedArgs args) dirs initResult rfl
  have htrace1 : (dirPhase env (copyResolvedArgs args) initResult dirs).2 =
      (dirs.take (stopCount (fun d => decide ((env.mkdirOutput d).failed = some true)) dirs)).map
        (dirOpOf (copyResolvedArgs args)) := by
    rw [hstep1]
  have hres1 : (dirPhase env (copyResolvedArgs args) initResult dirs).1 =
      ((dirs.take (stopCount (fun d => decide ((env.mkdirOutput d).failed = some true))
          dirs)).map env.mkdirOutput).foldl updateResultFromTask initResult := by
    rw [hstep1]
  have hfailed1 : (dirPhase env (copyResolvedArgs args) initResult dirs).1.failed =
      (dirs.take (stopCount (fun d => decide ((env.mkdirOutput d).failed = some true))
        dirs)).any (fun d => decide ((env.mkdirOutput d).failed = some true)) := by
    rw [hres1, foldl_update_failed, any_map']
    rfl
  by_cases hfail : (dirPhase env (copyResolvedArgs args) initResult dirs).1.failed = true
  · -- the directory phase aborted
    rw [if_pos hfail]
    refine ⟨(dirPhase env (copyResolvedArgs args) initResult dirs).1,
      (dirPhase env (copyResolvedArgs args) initResult dirs).2, rfl, ?_, ?_, ?_, ?_, ?_, ?_⟩
    · refine ⟨(dirPhase env (copyResolvedArgs args) initResult dirs).2, [],
        (List.append_nil _).symm, ?_, ?_⟩
      · intro op hop
        rw [htrace1] at hop
        obtain ⟨d, hd, hEq⟩ := List.mem_map.mp hop
        exact ⟨d, hEq.symm⟩
      · intro op hop
        exact absurd hop (List.not_mem_nil op)
    · exact ⟨_, by rw [htrace1, filterMap_mkdirPath_dirOps]⟩
    · rw [htrace1, filterMap_mkdirPath_dirOps]
      exact List.Pairwise.sublist (List.take_sublist _ dirs) hanc'
    · intro op hop
      rw [htrace1, ← List.map_dropLast] at hop
      obtain ⟨d, hd, hEq⟩ := List.mem_map.mp hop
      rw [← hEq]
      exact mem_take_stopCount_dropLast
        (fun d => decide ((env.mkdirOutput d).failed = some true)) dirs d hd
    · rw [hres1, htrace1, List.map_map]
      rfl
    · rw [hfailed1, htrace1, any_map']
      rfl
  · -- the directory phase completed; the file phase runs
    rw [if_neg hfail]
    have hfail' : (dirPhase env (copyResolvedArgs args) initResult dirs).1.failed = false := by
      cases hc : (dirPhase env (copyResolvedArgs args) initResult dirs).1.failed
      · rfl
      · exact absurd hc hfail
    have hallok : ∀ d ∈ dirs, (fun d =>
        decide ((env.mkdirOutput d).failed = some true)) d = false := by
      rw [hfailed1] at hfail'
      exact (any_take_stopCount_eq_false_iff _ dirs).mp hfail'
    have hkdlen : stopCount (fun d => decide ((env.mkdirOutput d).failed = some true)) dirs =
        dirs.length := stopCount_eq_length_of_ok _ dirs hallok
    have htake : dirs.take (stopCount (fun d =>
        decide ((env.mkdirOutput d).failed = some true)) dirs) = dirs := by
      rw [hkdlen, List.take_length]
    rw [htake] at htrace1 hres1
    have hstep2 := filePhase_eq env (copyResolvedArgs args) (destPairs env.walk)
      (dirPhase env (copyResolvedArgs args) initResult dirs).1 hfail'
    have htrace2 : (filePhase env (copyResolvedArgs args)
        (dirPhase env (copyResolvedArgs args) initResult dirs).1 (destPairs env.walk)).2 =
        ((destPairs env.walk).take (stopCount (fun sd =>
            decide ((env.copyOutput sd.1 sd.2).failed = some true)) (destPairs env.walk))).map
          (fun sd => fileOpOf (copyResolvedArgs args) sd.1 sd.2) := by
      rw [hstep2]
    have hres2 : (filePhase env (copyResolvedArgs args)
        (dirPhase env (copyResolvedArgs args) initResult dirs).1 (destPairs env.walk)).1 =
        (((destPairs env.walk).take (stopCount (fun sd =>
            decide ((env.copyOutput sd.1 sd.2).failed = some true)) (destPairs env.walk))).map
          (fun sd => env.copyOutput sd.1 sd.2)).foldl updateResultFromTask
          (dirPhase env (copyResolvedArgs args) initResult dirs).1 := by
      rw [hstep2]
    refine ⟨(filePhase env (copyResolvedArgs args)
        (dirPhase env (copyResolvedArgs args) initResult dirs).1 (destPairs env.walk)).1,
      (dirPhase env (copyResolvedArgs args) initResult dirs).2 ++
        (filePhase env (copyResolvedArgs args)
          (dirPhase env (copyResolvedArgs args) initResult dirs).1 (destPairs env.walk)).2,
      rfl, ?_, ?_, ?_, ?_, ?_, ?_⟩
    · refine ⟨(dirPhase env (copyResolvedArgs args) initResult dirs).2,
        (filePhase env (copyResolvedArgs args)
          (dirPhase env (copyResolvedArgs args) initResult dirs).1 (destPairs env.walk)).2,
        rfl, ?_, ?_⟩
      · intro op hop
        rw [htrace1] at hop
        obtain ⟨d, hd, hEq⟩ := List.mem_map.mp hop
        exact ⟨d, hEq.symm⟩
      · intro op hop
        rw [htrace2] at hop
        obtain ⟨sd, hsd, hEq⟩ := List.mem_map.mp hop
        exact ⟨sd, hEq.symm⟩
    · refine ⟨dirs.length, ?_⟩
      rw [htrace1, htrace2, List.filterMap_append, filterMap_mkdirPath_dirOps,
        filterMap_mkdirPath_fileOps, List.append_nil, List.take_length]
    · rw [htrace1, htrace2, List.filterMap_append, filterMap_mkdirPath_dirOps,
        filterMap_mkdirPath_fileOps, List.append_nil]
      exact hanc'
    · intro op hop
      rw [htrace1, htrace2] at hop
      by_cases hfe : (((destPairs env.walk).take (stopCount (fun sd =>
          decide ((env.copyOutput sd.1 sd.2).failed = some true)) (destPairs env.walk))).map
          (fun sd => fileOpOf (copyResolvedArgs args) sd.1 sd.2)) = []
      · rw [hfe, List.append_nil] at hop
        have hop' := List.dropLast_subset _ hop
        obtain ⟨d, hd, hEq⟩ := List.mem_map.mp hop'
        rw [← hEq]
        exact hallok d hd
      · rw [List.dropLast_append_of_ne_nil _ hfe] at hop
        rcases List.mem_append.mp hop with hop1 | hop2
        · obtain ⟨d, hd, hEq⟩ := List.mem_map.mp hop1
          rw [← hEq]
          exact hallok d hd
        · rw [← List.map_dropLast] at hop2
          obtain ⟨sd, hsd, hEq⟩ := List.mem_map.mp hop2
          rw [← hEq]
          exact mem_take_stopCount_dropLast
            (fun sd => decide ((env.copyOutput sd.1 sd.2).failed = some true))
            (destPairs env.walk) sd hsd
    · rw [hres2, htrace2, htrace1, List.map_append, List.map_map, List.map_map,
        List.foldl_append, hres1]
      rfl
    · rw [hres2, foldl_update_failed, htrace1, htrace2, List.any_append, any_map', any_map',
        any_map', hfail', Bool.false_or]
      rw [any_eq_false_of_all (fun d =>
        opFailed env (dirOpOf (copyResolvedArgs args) d)) dirs (fun d hd => hallok d hd),
        Bool.false_or]
      rfl

/-- Witness for C2 on the one-file tree `/local/a/b.txt`. -/
theorem c2_driver_ordering_witness :
    ∃ (r : RunResult) (trace : List RemoteOp),
      copyRun
        { this_os := "linux", src_root_isdir := fun _ => true,
          walk := [("/local/a/b.txt", "a/b.txt")],
          mkdirOutput := fun _ => ⟨none, none, none, none⟩,
          copyOutput := fun _ _ => ⟨none, none, none, none⟩ }
        { owner := "root", group := "root", mode := PyVal.str "0644",
          parent_dirs_mode := PyVal.str "0755", src_root := "/local",
          mode_overrides := none, owner_overrides := none, group_overrides := none,
          extra_args := [] } = (CopyOutcome.ok r, trace) ∧
      (∃ dops fops, trace = dops ++ fops ∧
        (∀ op ∈ dops, ∃ d, op = dirOpOf (copyResolvedArgs
          { owner := "root", group := "root", mode := PyVal.str "0644",
            parent_dirs_mode := PyVal.str "0755", src_root := "/local",
            mode_overrides := none, owner_overrides := none, group_overrides := none,
            extra_args := [] }) d) ∧
        (∀ op ∈ fops, ∃ sd : String × String,
          op = fileOpOf (copyResolvedArgs
            { owner := "root", group := "root", mode := PyVal.str "0644",
              parent_dirs_mode := PyVal.str "0755", src_root := "/local",
              mode_overrides := none, owner_overrides := none, group_overrides := none,
              extra_args := [] }) sd.1 sd.2)) ∧
      (∃ k, trace.filterMap mkdirPath = (["/a"] : List String).take k) ∧
      (trace.filterMap mkdirPath).Pairwise (fun a b => b ∉ strictAncestors a) ∧
      (∀ op ∈ trace.dropLast, opFailed
        { this_os := "linux", src_root_isdir := fun _ => true,
          walk := [("/local/a/b.txt", "a/b.txt")],
          mkdirOutput := fun _ => ⟨none, none, none, none⟩,
          copyOutput := fun _ _ => ⟨none, none, none, none⟩ } op = false) ∧
      r = ((trace.map (opOutput
        { this_os := "linux", src_root_isdir := fun _ => true,
          walk := [("/local/a/b.txt", "a/b.txt")],
          mkdirOutput := fun _ => ⟨none, none, none, none⟩,
          copyOutput := fun _ _ => ⟨none, none, none, none⟩ })).foldl
          updateResultFromTask initResult) ∧
      r.failed = trace.any (opFailed
        { this_os := "linux", src_root_isdir := fun _ => true,
          walk := [("/local/a/b.txt", "a/b.txt")],
          mkdirOutput := fun _ => ⟨none, none, none, none⟩,
          copyOutput := fun _ _ => ⟨none, none, none, none⟩ }) :=
  c2_driver_ordering
    { this_os := "linux", src_root_isdir := fun _ => true,
      walk := [("/local/a/b.txt", "a/b.txt")],
      mkdirOutput := fun _ => ⟨none, none, none, none⟩,
      copyOutput := fun _ _ => ⟨none, none, none, none⟩ }
    { owner := "root", group := "root", mode := PyVal.str "0644",
      parent_dirs_mode := PyVal.str "0755", src_root := "/local",
      mode_overrides := none, owner_overrides := none, group_overrides := none,
      extra_args := [] }
    ["/a"] (by decide) rfl rfl (by decide) (by decide) (by decide) (by decide)

end AnsibleRecursive
